import Mathlib

/-!
# Verification of `routine.py` (Auto Maple Plus)

A shallow embedding of the routine compiler/linker/interpreter of
`src/routine.py`.  Python values that flow through constructor arguments are
modelled by `PyVal`; Python exceptions that the code raises or catches are
modelled by `PyErr`; machine floats only ever enter as decimal literals taken
verbatim from the source rows and are never arithmetically combined, so a
float value is represented by its validated literal string.  Mutable Python
objects shared by reference (the `Label` objects that both the sequence and
every bound `Jump` point at) are modelled by a heap of `Label`s addressed by
`Nat` ids.
-/

set_option autoImplicit false

namespace Routine

/-- Python primitive values that appear as constructor arguments. -/
inductive PyVal where
  | pint (n : Int)
  | pstr (s : String)
  | pbool (b : Bool)
  deriving DecidableEq, Repr

/-- Python `str(value)` on the primitives above. -/
def PyVal.pyStr : PyVal → String
  | .pint n => toString n
  | .pstr s => s
  | .pbool b => if b then "True" else "False"

/-- ASCII lower-casing of one character (structural, kernel-reducible). -/
def lowerChar (c : Char) : Char :=
  if 65 ≤ c.toNat ∧ c.toNat ≤ 90 then Char.ofNat (c.toNat + 32) else c

/-- Python `str.lower()` for the row-leading token (ASCII suffices here). -/
def pyLower (s : String) : String :=
  String.mk (s.data.map lowerChar)

/-- The exception kinds `routine.py` raises or catches. -/
inductive PyErr where
  | valueError
  | typeError
  deriving DecidableEq, Repr

/-- Decimal float literal accepted by Python's `float(...)`:
optional sign, digits with at most one decimal point, at least one digit.
(Exponent/`inf`/`nan` forms are omitted; no claim depends on them.) -/
def isFloatDigits : List Char → Bool → Bool → Bool
  | [], sawDigit, _ => sawDigit
  | c :: cs, sawDigit, sawDot =>
    if c.isDigit then isFloatDigits cs true sawDot
    else if c = '.' && !sawDot then isFloatDigits cs sawDigit true
    else false

/-- Validity of a string for Python `float(x)`. -/
def isFloatLit (s : String) : Bool :=
  match s.data with
  | '+' :: rest => isFloatDigits rest false false
  | '-' :: rest => isFloatDigits rest false false
  | l => isFloatDigits l false false

/-- Python `float(x)` on a `PyVal`: returns the literal (see module header)
or raises `ValueError`. -/
def pyFloat : PyVal → Except PyErr String
  | .pstr s => if isFloatLit s then .ok s else .error .valueError
  | .pint n => .ok (toString n)
  | .pbool _ => .error .typeError

/-- Modelled from the spec: `utils.validate_boolean` (not under `src/`).
"Boolean fields accept a validator-defined truthy/falsy string set
(e.g., `True`/`False`)"; a non-boolean, non-recognised value is a
construction failure. -/
def validate_boolean : PyVal → Except PyErr Bool
  | .pbool b => .ok b
  | .pstr s => if s = "True" then .ok true
               else if s = "False" then .ok false
               else .error .valueError
  | .pint _ => .error .valueError

/-- Digit accumulator for `strToInt`. -/
def natOfDigitsAux (acc : Nat) : List Char → Option Nat
  | [] => some acc
  | c :: cs =>
    if c.isDigit then natOfDigitsAux (acc * 10 + (c.toNat - 48)) cs
    else none

/-- Python `int(s)` on a plain decimal string: optional sign then one or
more digits. -/
def strToInt (s : String) : Option Int :=
  match s.data with
  | [] => none
  | '-' :: c :: cs => (natOfDigitsAux 0 (c :: cs)).map (fun n => -(n : Int))
  | '+' :: c :: cs => (natOfDigitsAux 0 (c :: cs)).map (fun n => (n : Int))
  | l => (natOfDigitsAux 0 l).map (fun n => (n : Int))

/-- Modelled from the spec: `utils.validate_nonzero_int` (not under `src/`).
"`frequency` — positive integer": accepts a positive integer or a string
parsing to one, otherwise a construction failure. -/
def validate_nonzero_int : PyVal → Except PyErr Int
  | .pint n => if 1 ≤ n then .ok n else .error .valueError
  | .pstr s =>
    match strToInt s with
    | some n => if 1 ≤ n then .ok n else .error .valueError
    | none => .error .valueError
  | .pbool _ => .error .valueError

instance {ε α : Type} [DecidableEq ε] [DecidableEq α] :
    DecidableEq (Except ε α) := fun
  | .error a, .error b =>
    if h : a = b then isTrue (by rw [h])
    else isFalse (by intro he; cases he; exact h rfl)
  | .error _, .ok _ => isFalse (by intro h; cases h)
  | .ok _, .error _ => isFalse (by intro h; cases h)
  | .ok a, .ok b =>
    if h : a = b then isTrue (by rw [h])
    else isFalse (by intro he; cases he; exact h rfl)

/-- An external `Command` instance attached to a `Point`
(`config.command_book` entries are external collaborators; only the name and
the captured call arguments matter to this core). -/
structure Cmd where
  name : String
  args : List PyVal
  kwargs : List (String × PyVal)
  deriving DecidableEq, Repr

/-- Observable effects of executing instructions. -/
inductive Effect where
  | move (x y : String)
  | adjustTo (x y : String)
  | runCmd (c : Cmd)
  | labelMissing (name : String)
  deriving DecidableEq, Repr

/-- A `Point` ("Waypoint") object, `routine.py` lines 208-249.
`x`/`y` hold the validated float literals (module header). -/
structure Point where
  x : String
  y : String
  frequency : Int
  counter : Int
  adjust : Bool
  commands : List Cmd
  args : List (String × PyVal)
  deriving DecidableEq, Repr

/-- `Point.__init__`: captures `locals()` into `_args`, validates the
coordinates, the frequency and the two booleans, and starts the counter at
`int(skip)`. -/
def Point.make (x y frequency skip adjust : PyVal) :
    Except PyErr Point :=
  match pyFloat x with
  | .error e => .error e
  | .ok xv =>
    match pyFloat y with
    | .error e => .error e
    | .ok yv =>
      match validate_nonzero_int frequency with
      | .error e => .error e
      | .ok freq =>
        match validate_boolean skip with
        | .error e => .error e
        | .ok skipB =>
          match validate_boolean adjust with
          | .error e => .error e
          | .ok adjB =>
            .ok { x := xv, y := yv, frequency := freq,
                  counter := if skipB then 1 else 0, adjust := adjB,
                  commands := [],
                  args := [("x", x), ("y", y), ("frequency", frequency),
                           ("skip", skip), ("adjust", adjust)] }

/-- A `Label` object, `routine.py` lines 252-279.  `links` holds the sequence
positions of the Jumps currently bound to this Label. -/
structure Label where
  label : String
  index : Option Int
  links : List Nat
  args : List (String × PyVal)
  deriving DecidableEq, Repr

/-- `Label.__init__` given the current `Routine.labels` name table:
duplicate names raise `ValueError` before registration. -/
def Label.make (label : PyVal) (registered : List String) :
    Except PyErr Label :=
  let name := label.pyStr
  if name ∈ registered then .error .valueError
  else .ok { label := name, index := none, links := [],
             args := [("label", label)] }

/-- A `Jump` object, `routine.py` lines 282-329.  `link` is a heap id of the
bound `Label`, `none` until `bind` succeeds. -/
structure Jump where
  label : String
  frequency : Int
  counter : Int
  link : Option Nat
  args : List (String × PyVal)
  deriving DecidableEq, Repr

/-- `Jump.__init__`. -/
def Jump.make (label frequency skip : PyVal) : Except PyErr Jump :=
  match validate_nonzero_int frequency with
  | .error e => .error e
  | .ok freq =>
    match validate_boolean skip with
    | .error e => .error e
    | .ok skipB =>
      .ok { label := label.pyStr, frequency := freq,
            counter := if skipB then 1 else 0, link := none,
            args := [("label", label), ("frequency", frequency),
                     ("skip", skip)] }

/-- A `Setting` object, `routine.py` lines 332-348.  The validator registry
`settings.SETTING_VALIDATORS` is an external collaborator; it is passed in as
a partial map from key to validator. -/
structure Setting where
  key : String
  value : PyVal
  args : List (String × PyVal)
  deriving DecidableEq, Repr

/-- `Setting.__init__`: the key must exist in the validator registry and the
value is coerced through the matching validator. -/
def Setting.make (validators : String → Option (PyVal → Except PyErr PyVal))
    (key value : PyVal) : Except PyErr Setting :=
  match validators key.pyStr with
  | none => .error .valueError
  | some v =>
    match v value with
    | .error e => .error e
    | .ok coerced =>
      .ok { key := key.pyStr, value := coerced,
            args := [("key", key), ("value", value)] }

/-- A compiled top-level instruction as stored in `Routine.sequence`.
A `Label` is stored through its heap id, since the same object is shared by
reference with every bound `Jump`. -/
inductive Instr where
  | point (p : Point)
  | label (lid : Nat)
  | jump (j : Jump)
  | setting (s : Setting)
  deriving DecidableEq, Repr

/-- The program state: the `Routine` instance fields (`path`, `sequence`)
together with the class-level state (`Routine.labels`, `Routine.index`) and
the heap of shared `Label` objects.  `index` is `Option Int` because Python
would store whatever `link.index` holds, including `None`. -/
structure State where
  path : String
  sequence : List Instr
  labels : List (String × Nat)
  heap : List Label
  index : Option Int
  deriving DecidableEq, Repr

/-- First binding of a name in the `Routine.labels` dict. -/
def lookupLabel (labels : List (String × Nat)) (name : String) : Option Nat :=
  (labels.find? (fun kv => kv.1 = name)).map (·.2)

/-- `Point._increment_counter`, itself gated by `utils.run_if_enabled`
(modelled from the spec: when disabled, counter advancement is suppressed). -/
def Point._increment_counter (enabled : Bool) (p : Point) : Point :=
  if enabled then { p with counter := (p.counter + 1) % p.frequency } else p

/-- The effects a firing `Point` produces: the move, the optional adjust,
then every attached command in authoring order. -/
def Point.fireEffects (p : Point) : List Effect :=
  Effect.move p.x p.y ::
    (if p.adjust then [Effect.adjustTo p.x p.y] else []) ++
      p.commands.map Effect.runCmd

/-- `Point.main`: on `counter == 0` it fetches `move` (and, when the adjust
flag is set, `adjust`) from `config.command_book` with an unchecked `.get`;
a missing entry yields `None`, and calling it raises `TypeError`.  `book`
is the set of names present in the external command book. -/
def Point.main (book : String → Bool) (enabled : Bool) (p : Point) :
    Except PyErr (Point × List Effect) :=
  if p.counter = 0 then
    if book "move" then
      if p.adjust && !book "adjust" then .error .typeError
      else .ok (p._increment_counter enabled, p.fireEffects)
    else .error .typeError
  else .ok (p._increment_counter enabled, [])

/-- `Component.execute` for a `Point`: `main` gated by `run_if_enabled`
(modelled from the spec: a disabled instruction does nothing at all). -/
def Point.execute (book : String → Bool) (enabled : Bool) (p : Point) :
    Except PyErr (Point × List Effect) :=
  if enabled then p.main book enabled else .ok (p, [])

/-- Iterated enabled executions of a `Point`, collecting each execution's
effects in order (`logs.get j` = effects of the `(j+1)`-th execution). -/
def Point.iterate (book : String → Bool) (enabled : Bool) :
    Nat → Point → Except PyErr (Point × List (List Effect))
  | 0, p => .ok (p, [])
  | n + 1, p =>
    match p.execute book enabled with
    | .error e => .error e
    | .ok (p1, effs) =>
      match Point.iterate book enabled n p1 with
      | .error e => .error e
      | .ok (p2, logs) => .ok (p2, effs :: logs)

/-- `Jump._increment_counter`, gated like the `Point` one. -/
def Jump._increment_counter (enabled : Bool) (j : Jump) : Jump :=
  if enabled then { j with counter := (j.counter + 1) % j.frequency } else j

/-- `Jump.main`: with no link it only prints a diagnostic; with a link it
sets `Routine.index` to the Label's index as read now when `counter == 0`,
then advances the counter. -/
def Jump.main (st : State) (enabled : Bool) (j : Jump) :
    State × Jump × List Effect :=
  match j.link with
  | none => (st, j, [Effect.labelMissing j.label])
  | some lid =>
    let st' := if j.counter = 0 then
        { st with index := (st.heap.get? lid).bind Label.index }
      else st
    (st', j._increment_counter enabled, [])

/-- `Component.execute` for a `Jump`. -/
def Jump.execute (st : State) (enabled : Bool) (j : Jump) :
    State × Jump × List Effect :=
  if enabled then j.main st enabled else (st, j, [])

/-- Iterated enabled executions of a `Jump`, collecting each execution's
effects in order. -/
def Jump.iterate (enabled : Bool) :
    Nat → State → Jump → State × Jump × List (List Effect)
  | 0, st, j => (st, j, [])
  | n + 1, st, j =>
    let (st1, j1, effs) := j.execute st enabled
    let (st2, j2, logs) := Jump.iterate enabled n st1 j1
    (st2, j2, effs :: logs)

/-- `Jump.bind` (`routine.py` lines 306-317): resolve the target name in
`Routine.labels`; on success set `link` and add this jump (identified by its
sequence position) to the Label's back-reference set. -/
def Jump.bind (st : State) (selfPos : Nat) (j : Jump) :
    State × Jump × Bool :=
  match lookupLabel st.labels j.label with
  | some lid =>
    let heap' := match st.heap.get? lid with
      | some lob => st.heap.set lid { lob with links := lob.links ++ [selfPos] }
      | none => st.heap
    ({ st with heap := heap' }, { j with link := some lid }, true)
  | none => (st, j, false)

/-! ## Row parsing and serialization

Raw text is manipulated at the `List Char` level; `String.mk` wraps results.
`splitOnChar` models splitting a quote-free line the way `csv.reader` (with
`skipinitialspace=True`) tokenizes it. -/

/-- Split a character list at every occurrence of `c` (fields may be empty). -/
def splitOnChar (c : Char) : List Char → List (List Char)
  | [] => [[]]
  | x :: xs =>
    let r := splitOnChar c xs
    if x = c then [] :: r
    else
      match r with
      | [] => [[x]]
      | h :: t => (x :: h) :: t

/-- `csv.reader` with `skipinitialspace=True` on one quote-free line:
split at commas, and drop spaces immediately following each delimiter. -/
def splitRowChars (line : List Char) : List String :=
  match splitOnChar ',' line with
  | [] => []
  | f :: rest =>
    String.mk f :: rest.map (fun l => String.mk (l.dropWhile (· = ' ')))

/-- Split a field at its first `=`, if any. -/
def splitFirstEq : List Char → Option (List Char × List Char)
  | [] => none
  | c :: cs =>
    if c = '=' then some ([], cs)
    else
      match splitFirstEq cs with
      | none => none
      | some (k, v) => some (c :: k, v)

/-- Modelled from the spec: `utils.separate_args` (not under `src/`).
"Remaining fields split into positional arguments and `key=value` keyword
arguments (first `=` splits key from value; absence of `=` means
positional)." -/
def separate_args : List String → List PyVal × List (String × PyVal)
  | [] => ([], [])
  | f :: rest =>
    let (args, kwargs) := separate_args rest
    match splitFirstEq f.data with
    | none => (PyVal.pstr f :: args, kwargs)
    | some (k, v) => (args, (String.mk k, PyVal.pstr (String.mk v)) :: kwargs)

/-- Value of keyword `k` after Python's dict collapse (last occurrence wins). -/
def kwValue (kwargs : List (String × PyVal)) (k : String) : Option PyVal :=
  (kwargs.reverse.find? (fun kv => kv.1 = k)).map (·.2)

/-- Python call-argument binding for a positional-parameter signature:
`params` lists `(name, default)` in signature order.  Raises `TypeError` on
extra positionals, a keyword duplicating a positional, an unexpected
keyword, or a missing required argument. -/
def bindParamsAux (kwargs : List (String × PyVal)) :
    List (String × Option PyVal) → List PyVal → Except PyErr (List PyVal)
  | [], [] => .ok []
  | [], _ :: _ => .error .typeError
  | (name, _) :: ps, a :: as =>
    if (kwValue kwargs name).isSome then .error .typeError
    else
      match bindParamsAux kwargs ps as with
      | .error e => .error e
      | .ok rest => .ok (a :: rest)
  | (name, dflt) :: ps, [] =>
    match kwValue kwargs name, dflt with
    | some v, _ =>
      match bindParamsAux kwargs ps [] with
      | .error e => .error e
      | .ok rest => .ok (v :: rest)
    | none, some d =>
      match bindParamsAux kwargs ps [] with
      | .error e => .error e
      | .ok rest => .ok (d :: rest)
    | none, none => .error .typeError

/-- Full binding step: reject unexpected keywords, then bind. -/
def bindParams (params : List (String × Option PyVal)) (args : List PyVal)
    (kwargs : List (String × PyVal)) : Except PyErr (List PyVal) :=
  if kwargs.any (fun kv => (params.find? (fun p => p.1 = kv.1)).isNone) then
    .error .typeError
  else bindParamsAux kwargs params args

/-- Signature of `Point.__init__` (after `self`). -/
def pointParams : List (String × Option PyVal) :=
  [("x", none), ("y", none), ("frequency", some (.pint 1)),
   ("skip", some (.pstr "False")), ("adjust", some (.pstr "False"))]

/-- Signature of `Label.__init__` (after `self`). -/
def labelParams : List (String × Option PyVal) := [("label", none)]

/-- Signature of `Jump.__init__` (after `self`). -/
def jumpParams : List (String × Option PyVal) :=
  [("label", none), ("frequency", some (.pint 1)),
   ("skip", some (.pstr "False"))]

/-- Signature of `Setting.__init__` (after `self`). -/
def settingParams : List (String × Option PyVal) :=
  [("key", none), ("value", none)]

/-- A successfully constructed object as `Routine._eval` returns it
(before any sequence/table bookkeeping). -/
inductive Parsed where
  | point (p : Point)
  | plabel (l : Label)
  | pjump (j : Jump)
  | psetting (s : Setting)
  deriving DecidableEq, Repr

/-- The `SYMBOLS` dispatch table keys (`routine.py` lines 351-356). -/
def SYMBOLS : List String := ["*", "@", ">", "$"]

/-- Constructor dispatch and invocation: `c(*args, **kwargs)` for the four
built-in symbols, given the names currently in `Routine.labels`. -/
def evalObj (validators : String → Option (PyVal → Except PyErr PyVal))
    (registered : List String) (first : String) (args : List PyVal)
    (kwargs : List (String × PyVal)) : Except PyErr Parsed :=
  if first = "*" then
    match bindParams pointParams args kwargs with
    | .error e => .error e
    | .ok [x, y, f, s, a] =>
      match Point.make x y f s a with
      | .error e => .error e
      | .ok p => .ok (.point p)
    | .ok _ => .error .typeError
  else if first = "@" then
    match bindParams labelParams args kwargs with
    | .error e => .error e
    | .ok [l] =>
      match Label.make l registered with
      | .error e => .error e
      | .ok lob => .ok (.plabel lob)
    | .ok _ => .error .typeError
  else if first = ">" then
    match bindParams jumpParams args kwargs with
    | .error e => .error e
    | .ok [l, f, s] =>
      match Jump.make l f s with
      | .error e => .error e
      | .ok j => .ok (.pjump j)
    | .ok _ => .error .typeError
  else
    match bindParams settingParams args kwargs with
    | .error e => .error e
    | .ok [k, v] =>
      match Setting.make validators k v with
      | .error e => .error e
      | .ok s => .ok (.psetting s)
    | .ok _ => .error .typeError

/-- `Routine._eval` restricted to a fresh compile (empty label table):
the parsing half of the round-trip law.  External command rows are outside
this core (spec §1 places the action catalog out of scope). -/
def parseRow (validators : String → Option (PyVal → Except PyErr PyVal))
    (row : List String) : Option Parsed :=
  match row with
  | [] => none
  | first0 :: rest =>
    let first := pyLower first0
    if first ∈ SYMBOLS then
      let (args, kwargs) := separate_args rest
      match evalObj validators [] first args kwargs with
      | .ok p => some p
      | .error _ => none
    else none

/-- The `id` tag of a parsed object's class. -/
def Parsed.tag : Parsed → String
  | .point _ => "*"
  | .plabel _ => "@"
  | .pjump _ => ">"
  | .psetting _ => "$"

/-- The captured `_args` of a parsed object. -/
def Parsed.argsOf : Parsed → List (String × PyVal)
  | .point p => p.args
  | .plabel l => l.args
  | .pjump j => j.args
  | .psetting s => s.args

/-- `Component.encode`'s argument fields: `key=value` for every non-`id`,
primitive-typed captured argument (every captured argument here is one of
Python's `int`/`str`/`bool`, all in `Component.PRIMITIVES`). -/
def encodeArgs (args : List (String × PyVal)) : List (List Char) :=
  (args.filter (fun kv => kv.1 ≠ "id")).map
    (fun kv => kv.1.data ++ '=' :: kv.2.pyStr.data)

/-- `', '.join` of the encoded fields. -/
def joinFields : List (List Char) → List Char
  | [] => []
  | [f] => f
  | f :: fs => f ++ ',' :: ' ' :: joinFields fs

/-- `Component.encode` (with `Label.encode`'s leading newline). -/
def Parsed.encodeChars (p : Parsed) : List Char :=
  let core := joinFields (p.tag.data :: encodeArgs p.argsOf)
  match p with
  | .plabel _ => '\n' :: core
  | _ => core

/-- `encode` as the saved text. -/
def Parsed.encode (p : Parsed) : String :=
  String.mk p.encodeChars

/-- Re-reading saved text: split into lines, drop empty lines (an empty CSV
row is skipped by `_eval`), tokenize each line. -/
def decodeRows (s : String) : List (List String) :=
  ((splitOnChar '\n' s.data).filter (· ≠ [])).map splitRowChars

/-- Re-parsing the encoded text of a single instruction in a fresh compile. -/
def decode (validators : String → Option (PyVal → Except PyErr PyVal))
    (s : String) : Option Parsed :=
  match decodeRows s with
  | [row] => parseRow validators row
  | _ => none

/-- The same object with every captured argument replaced by its Python
string form — exactly what a save/reload cycle hands back to the
constructors, since the CSV text carries only strings. -/
def Parsed.stringifyArgs : Parsed → Parsed
  | .point p => .point
      { p with args := p.args.map (fun kv => (kv.1, PyVal.pstr kv.2.pyStr)) }
  | .plabel l => .plabel
      { l with args := l.args.map (fun kv => (kv.1, PyVal.pstr kv.2.pyStr)) }
  | .pjump j => .pjump
      { j with args := j.args.map (fun kv => (kv.1, PyVal.pstr kv.2.pyStr)) }
  | .psetting s => .psetting
      { s with args := s.args.map (fun kv => (kv.1, PyVal.pstr kv.2.pyStr)) }

/-! ## Compile, link and load -/

/-- What `Routine._eval` hands back to `compile` for one row. -/
inductive EvalItem where
  | instr (i : Instr)
  | cmd (c : Cmd)
  deriving DecidableEq, Repr

/-- `Routine._eval` (`routine.py` lines 115-137) with its in-place
bookkeeping: a skipped row (empty, unknown token, or a constructor raising
`ValueError`/`TypeError`) changes nothing; a fresh `Label` gets
`set_index(len(self))` and is registered in `Routine.labels`.  `book` is the
set of names in the external `config.command_book`; external command
construction is modelled as capturing the call arguments. -/
def State.evalRow (book : String → Bool)
    (validators : String → Option (PyVal → Except PyErr PyVal))
    (st : State) (row : List String) : State × Option EvalItem :=
  match row with
  | [] => (st, none)
  | first0 :: rest =>
    let first := pyLower first0
    let (args, kwargs) := separate_args rest
    if first ∈ SYMBOLS then
      match evalObj validators (st.labels.map (·.1)) first args kwargs with
      | .error _ => (st, none)
      | .ok (.plabel lob) =>
        let lid := st.heap.length
        let lob' := { lob with index := some (st.sequence.length : Int) }
        ({ st with heap := st.heap ++ [lob'],
                   labels := st.labels ++ [(lob.label, lid)] },
         some (.instr (.label lid)))
      | .ok (.point p) => (st, some (.instr (.point p)))
      | .ok (.pjump j) => (st, some (.instr (.jump j)))
      | .ok (.psetting s) => (st, some (.instr (.setting s)))
    else if book first then (st, some (.cmd ⟨first, args, kwargs⟩))
    else (st, none)

/-- One iteration of the `compile` loop: commands attach to the most recent
`Point` (tracked by its sequence position), other results append to the
sequence. -/
def compileStep (book : String → Bool)
    (validators : String → Option (PyVal → Except PyErr PyVal))
    (acc : State × Option Nat) (row : List String) : State × Option Nat :=
  let (st, curr) := acc
  let (st1, res) := st.evalRow book validators row
  match res with
  | none => (st1, curr)
  | some (.cmd c) =>
    match curr with
    | none => (st1, none)
    | some pos =>
      match st1.sequence.get? pos with
      | some (.point p) =>
        ({ st1 with sequence :=
            st1.sequence.set pos (.point { p with commands := p.commands ++ [c] }) },
         curr)
      | _ => (st1, curr)
  | some (.instr i) =>
    let pos := st1.sequence.length
    let st2 := { st1 with sequence := st1.sequence ++ [i] }
    match i with
    | .point _ => (st2, some pos)
    | _ => (st2, curr)

/-- `Routine.compile` (`routine.py` lines 97-113): reset `Routine.labels`,
then fold the rows.  Old `Label` objects stay on the heap (they are simply
no longer registered), matching Python object lifetime. -/
def State.compile (book : String → Bool)
    (validators : String → Option (PyVal → Except PyErr PyVal))
    (st : State) (rows : List (List String)) : State :=
  (rows.foldl (compileStep book validators) ({ st with labels := [] }, none)).1

/-- The linking pass of `Routine.load`: `c.bind()` for every `Jump` in the
sequence, in order. -/
def State.bindJumps (st : State) : State :=
  (List.range st.sequence.length).foldl
    (fun s i =>
      match s.sequence.get? i with
      | some (.jump j) =>
        let (s1, j1, _) := Jump.bind s i j
        { s1 with sequence := s1.sequence.set i (.jump j1) }
      | _ => s)
    st

/-- `os.path.basename`, raising `TypeError` on `None` (as `os.fspath(None)`
does). -/
def basename : Option String → Except PyErr String
  | none => .error .typeError
  | some s => .ok (String.mk ((s.data.reverse.takeWhile (· ≠ '/')).reverse))

/-- The extension part of `os.path.splitext`: the suffix from the last dot
of the base name, ignoring a leading run of dots. -/
def extOf (s : String) : String :=
  let base := (s.data.reverse.takeWhile (· ≠ '/')).reverse
  let rest := base.dropWhile (· = '.')
  if '.' ∈ rest then
    String.mk ('.' :: (rest.reverse.takeWhile (· ≠ '.')).reverse)
  else ""

/-- `Routine.load` (`routine.py` lines 56-95).  `read` stands for the file
system (path to parsed CSV rows); GUI/layout/settings notifications are
external sinks.  The very first statement prints a banner interpolating
`basename(file)`, so it runs before the missing-path check. -/
def State.load (read : String → List (List String)) (book : String → Bool)
    (validators : String → Option (PyVal → Except PyErr PyVal))
    (st : State) (file : Option String) : Except PyErr (State × Bool) := do
  let _ ← basename file
  let f : String ←
    match file with
    | none =>
      if st.path ≠ "" then pure st.path else return (st, false)
    | some s =>
      if s = "" then
        if st.path ≠ "" then pure st.path else return (st, false)
      else pure s
  if extOf f ≠ ".csv" then return (st, false)
  let st1 := { st with sequence := [], index := some 0 }
  let st2 := st1.compile book validators (read f)
  let st3 := st2.bindJumps
  return ({ st3 with path := f }, true)

/-- A freshly constructed `Routine` with the class-level state at its
initial values (`Routine.labels = {}`, `Routine.index = 0`). -/
def initState : State :=
  { path := "", sequence := [], labels := [], heap := [], index := some 0 }

/-! ## Concrete instances used by witnesses and counterexamples -/

/-- An empty external command book. -/
def book0 : String → Bool := fun _ => false

/-- A command book holding exactly `move` and `adjust`. -/
def bookMA : String → Bool := fun s => s = "move" || s = "adjust"

/-- An empty settings-validator registry. -/
def novals : String → Option (PyVal → Except PyErr PyVal) := fun _ => none

/-- The four source rows of the spec's compile scenario. -/
def rows9 : List (List String) :=
  [["*", "100", "200"], ["@", "start"], [">", "start"], ["*", "300", "400"]]

/-- The compiled-and-linked program of the scenario. -/
def st9 : State := (initState.compile book0 novals rows9).bindJumps

/-- The `Jump` object the scenario's third row compiles and links to. -/
def jump9 : Jump :=
  { label := "start", frequency := 1, counter := 0, link := some 0,
    args := [("label", .pstr "start"), ("frequency", .pint 1),
             ("skip", .pstr "False")] }

/-- The `Point` built from `skip=True, frequency=1`: its counter starts at
`1 = frequency`. -/
def pointBad : Point :=
  { x := "1", y := "2", frequency := 1, counter := 1, adjust := false,
    commands := [],
    args := [("x", .pstr "1"), ("y", .pstr "2"), ("frequency", .pint 1),
             ("skip", .pstr "True"), ("adjust", .pstr "False")] }

/-- A freshly constructed (hence unlinked) `Jump` with `frequency=2`. -/
def jumpNoLink : Jump :=
  { label := "a", frequency := 2, counter := 0, link := none,
    args := [("label", .pstr "a"), ("frequency", .pstr "2"),
             ("skip", .pstr "False")] }

/-- A `Point` built from `*, 1, 2, frequency=2`. -/
def pointW : Point :=
  { x := "1", y := "2", frequency := 2, counter := 0, adjust := false,
    commands := [],
    args := [("x", .pstr "1"), ("y", .pstr "2"), ("frequency", .pint 2),
             ("skip", .pstr "False"), ("adjust", .pstr "False")] }

/-- A `Jump` built from `>, a`. -/
def jumpW : Jump :=
  { label := "a", frequency := 1, counter := 0, link := none,
    args := [("label", .pstr "a"), ("frequency", .pint 1),
             ("skip", .pstr "False")] }

/-- The Label parsed from the CSV row `@, "a,b"` (a quoted field whose
value contains a comma — legal CSV, so a valid source row). -/
def labelComma : Parsed :=
  .plabel { label := "a,b", index := none, links := [],
            args := [("label", .pstr "a,b")] }

/-- The Point parsed from the row `*, 100, 200`. -/
def pointRT : Parsed :=
  .point { x := "100", y := "200", frequency := 1, counter := 0,
           adjust := false, commands := [],
           args := [("x", .pstr "100"), ("y", .pstr "200"),
                    ("frequency", .pint 1), ("skip", .pstr "False"),
                    ("adjust", .pstr "False")] }

/-- A settings-validator registry with a single key `speed` whose validator
coerces by identity (external collaborator, fixed for the witness). -/
def vals1 : String → Option (PyVal → Except PyErr PyVal) :=
  fun k => if k = "speed" then some (fun v => .ok v) else none

/-- The SettingChange parsed from the row `$, speed, 5` under `vals1`. -/
def settingRT : Parsed :=
  .psetting { key := "speed", value := .pstr "5",
              args := [("key", .pstr "speed"), ("value", .pstr "5")] }

/-- The program state after compiling the single row `@, a`. -/
def stDupA : State :=
  { path := "", sequence := [.label 0], labels := [("a", 0)],
    heap := [{ label := "a", index := some 0, links := [],
               args := [("label", .pstr "a")] }],
    index := some 0 }

/-! ## Inversion and validator lemmas -/

theorem validate_nonzero_int_ok_pos {v : PyVal} {n : Int}
    (h : validate_nonzero_int v = .ok n) : 1 ≤ n := by
  cases v with
  | pint m =>
    simp only [validate_nonzero_int] at h
    split at h <;> simp_all
  | pstr s =>
    simp only [validate_nonzero_int] at h
    split at h
    · split at h <;> simp_all
    · cases h
  | pbool b => simp [validate_nonzero_int] at h

theorem point_make_inversion {x y fr sk ad : PyVal} {p : Point}
    (h : Point.make x y fr sk ad = .ok p) :
    ∃ xv yv fv sb ab,
      pyFloat x = .ok xv ∧ pyFloat y = .ok yv ∧
      validate_nonzero_int fr = .ok fv ∧ validate_boolean sk = .ok sb ∧
      validate_boolean ad = .ok ab ∧
      p = { x := xv, y := yv, frequency := fv,
            counter := if sb then 1 else 0, adjust := ab, commands := [],
            args := [("x", x), ("y", y), ("frequency", fr),
                     ("skip", sk), ("adjust", ad)] } := by
  unfold Point.make at h
  rcases hx : pyFloat x with e | xv <;> rw [hx] at h
  · cases h
  rcases hy : pyFloat y with e | yv <;> rw [hy] at h
  · cases h
  rcases hf : validate_nonzero_int fr with e | fv <;> rw [hf] at h
  · cases h
  rcases hs : validate_boolean sk with e | sb <;> rw [hs] at h
  · cases h
  rcases ha : validate_boolean ad with e | ab <;> rw [ha] at h
  · cases h
  cases h
  exact ⟨xv, yv, fv, sb, ab, rfl, rfl, rfl, rfl, rfl, rfl⟩

theorem jump_make_inversion {l f s : PyVal} {j : Jump}
    (h : Jump.make l f s = .ok j) :
    ∃ fv sb,
      validate_nonzero_int f = .ok fv ∧ validate_boolean s = .ok sb ∧
      j = { label := l.pyStr, frequency := fv,
            counter := if sb then 1 else 0, link := none,
            args := [("label", l), ("frequency", f), ("skip", s)] } := by
  unfold Jump.make at h
  rcases hf : validate_nonzero_int f with e | fv <;> rw [hf] at h
  · cases h
  rcases hs : validate_boolean s with e | sb <;> rw [hs] at h
  · cases h
  cases h
  exact ⟨fv, sb, rfl, rfl, rfl⟩

/-! ## Claim theorems -/

/-- C1 (the code contradicts the claimed policy): calling `load` with no
file path raises `TypeError` out of the banner `print` (`basename(None)`)
before the missing-path check at lines 67-73 can run; the `return False`
branch the claim describes is reachable only for an empty-string path, where
the code does return failure without touching any state. -/
theorem load_no_file_raises_typeError :
    State.load (fun _ => []) book0 novals initState none =
      .error .typeError ∧
    State.load (fun _ => []) book0 novals initState (some "") =
      .ok (initState, false) := by
  constructor <;> rfl

/-- C2 (counterexample): a `Point` constructed with `skip=True` and
`frequency=1` — a valid argument combination — has `counter = 1 = frequency`
immediately after construction, so `0 ≤ counter < frequency` does not hold
at every moment from construction onward. -/
theorem counter_invariant_fails_at_construction :
    Point.make (.pstr "1") (.pstr "2") (.pint 1) (.pstr "True")
        (.pstr "False") = .ok pointBad ∧
    ¬ (0 ≤ pointBad.counter ∧ pointBad.counter < pointBad.frequency) :=
  ⟨rfl, by decide⟩

/-- C2 (amended): at construction the counter is `int(skip) ∈ {0, 1}` and
satisfies `0 ≤ counter < frequency` except in the single combination
`skip=true, frequency=1`, where `counter = 1 = frequency`; every enabled
counter advancement (for `Point` and `Jump` alike) wraps via
`(counter + 1) mod frequency`, which always lands in `[0, frequency)`. -/
theorem counter_invariant_amended
    (x y fr sk ad l f2 s2 : PyVal) (p : Point) (j : Jump)
    (hp : Point.make x y fr sk ad = .ok p)
    (hj : Jump.make l f2 s2 = .ok j) :
    (1 ≤ p.frequency ∧ (p.counter = 0 ∨ p.counter = 1) ∧
      (p.counter < p.frequency ∨ (p.counter = 1 ∧ p.frequency = 1))) ∧
    (1 ≤ j.frequency ∧ (j.counter = 0 ∨ j.counter = 1) ∧
      (j.counter < j.frequency ∨ (j.counter = 1 ∧ j.frequency = 1))) ∧
    (∀ q : Point, 1 ≤ q.frequency →
      (q._increment_counter true).counter = (q.counter + 1) % q.frequency ∧
      0 ≤ (q._increment_counter true).counter ∧
      (q._increment_counter true).counter < q.frequency) ∧
    (∀ k : Jump, 1 ≤ k.frequency →
      (k._increment_counter true).counter = (k.counter + 1) % k.frequency ∧
      0 ≤ (k._increment_counter true).counter ∧
      (k._increment_counter true).counter < k.frequency) := by
  obtain ⟨xv, yv, fv, sb, ab, hx, hy, hf, hs, ha, rfl⟩ := point_make_inversion hp
  obtain ⟨fv2, sb2, hf2, hs2, rfl⟩ := jump_make_inversion hj
  have h1 := validate_nonzero_int_ok_pos hf
  have h2 := validate_nonzero_int_ok_pos hf2
  refine ⟨⟨h1, ?_, ?_⟩, ⟨h2, ?_, ?_⟩, ?_, ?_⟩
  · cases sb <;> simp
  · cases sb <;> simp <;> omega
  · cases sb2 <;> simp
  · cases sb2 <;> simp <;> omega
  · intro q hq
    have hc : (q._increment_counter true).counter =
        (q.counter + 1) % q.frequency := by
      simp [Point._increment_counter]
    refine ⟨hc, ?_, ?_⟩
    · rw [hc]; exact Int.emod_nonneg _ (by omega)
    · rw [hc]; exact Int.emod_lt_of_pos _ (by omega)
  · intro k hk
    have hc : (k._increment_counter true).counter =
        (k.counter + 1) % k.frequency := by
      simp [Jump._increment_counter]
    refine ⟨hc, ?_, ?_⟩
    · rw [hc]; exact Int.emod_nonneg _ (by omega)
    · rw [hc]; exact Int.emod_lt_of_pos _ (by omega)

/-- Witness for C2 (amended) at `*, 1, 2, frequency=2` and `>, a`. -/
theorem counter_invariant_amended_witness :
    Point.make (.pstr "1") (.pstr "2") (.pint 2) (.pstr "False")
        (.pstr "False") = .ok pointW ∧
    Jump.make (.pstr "a") (.pint 1) (.pstr "False") = .ok jumpW ∧
    (pointW.counter < pointW.frequency ∨
      (pointW.counter = 1 ∧ pointW.frequency = 1)) ∧
    (jumpW.counter < jumpW.frequency ∨
      (jumpW.counter = 1 ∧ jumpW.frequency = 1)) :=
  ⟨rfl, rfl,
   (counter_invariant_amended (.pstr "1") (.pstr "2") (.pint 2)
     (.pstr "False") (.pstr "False") (.pstr "a") (.pint 1) (.pstr "False")
     pointW jumpW rfl rfl).1.2.2,
   (counter_invariant_amended (.pstr "1") (.pstr "2") (.pint 2)
     (.pstr "False") (.pstr "False") (.pstr "a") (.pint 1) (.pstr "False")
     pointW jumpW rfl rfl).2.1.2.2⟩

/-- C3 (counterexample): an enabled execution of an unlinked `Jump`
(`link is None`) does *not* advance the counter: the increment sits in the
`else` branch of `Jump.main`, so the unresolved case only prints the
diagnostic. -/
theorem jump_unlinked_does_not_advance_counter :
    Jump.make (.pstr "a") (.pstr "2") (.pstr "False") = .ok jumpNoLink ∧
    (Jump.execute initState true jumpNoLink).2.1.counter ≠
      (jumpNoLink.counter + 1) % jumpNoLink.frequency :=
  ⟨by decide, by decide⟩

/-- C3 (amended): on an enabled execution of a `Jump` whose link is
resolved, the counter advances to `(counter + 1) mod frequency` whether or
not it fires; when the link is unresolved the execution leaves the state
and the jump untouched and produces only the missing-label diagnostic. -/
theorem jump_counter_advance_amended (st : State) (j : Jump) :
    (∀ lid, j.link = some lid →
      (Jump.execute st true j).2.1.counter = (j.counter + 1) % j.frequency) ∧
    (j.link = none →
      Jump.execute st true j = (st, j, [Effect.labelMissing j.label])) := by
  constructor
  · intro lid hl
    simp [Jump.execute, Jump.main, hl, Jump._increment_counter]
  · intro hl
    simp [Jump.execute, Jump.main, hl]

/-- Witness for C3 (amended): a linked jump advances `0 → (0+1) % 1`, an
unlinked one is inert. -/
theorem jump_counter_advance_amended_witness :
    (Jump.execute initState true jump9).2.1.counter =
      (jump9.counter + 1) % jump9.frequency ∧
    Jump.execute initState true jumpNoLink =
      (initState, jumpNoLink, [Effect.labelMissing jumpNoLink.label]) :=
  ⟨(jump_counter_advance_amended initState jump9).1 0 rfl,
   (jump_counter_advance_amended initState jumpNoLink).2 rfl⟩

/-- C8: a `Jump` whose name was never bound (`link is None`) leaves the
whole program state — in particular `Routine.index` — untouched no matter
how many times it is executed; every execution emits exactly the
missing-label diagnostic and nothing else. -/
theorem unlinked_jump_never_moves_pc (st : State) (j : Jump)
    (h : j.link = none) (n : Nat) :
    Jump.iterate true n st j =
      (st, j, List.replicate n [Effect.labelMissing j.label]) := by
  induction n with
  | zero => simp [Jump.iterate]
  | succ m ih =>
    simp [Jump.iterate, Jump.execute, Jump.main, h, ih, List.replicate_succ]

/-- Witness for C8 at three executions of a concrete unlinked jump. -/
theorem unlinked_jump_never_moves_pc_witness :
    Jump.iterate true 3 initState jumpNoLink =
      (initState, jumpNoLink,
        List.replicate 3 [Effect.labelMissing jumpNoLink.label]) :=
  unlinked_jump_never_moves_pc initState jumpNoLink rfl 3

/-- C9: compiling the four scenario rows yields exactly 4 top-level
instructions; the Label `start` sits at position 1 with `index = 1`
(assigned as the sequence length before appending); after linking, firing
the Jump sets `Routine.index` to 1. -/
theorem compile_scenario :
    st9.sequence.length = 4 ∧
    st9.sequence.get? 1 = some (.label 0) ∧
    lookupLabel st9.labels "start" = some 0 ∧
    (st9.heap.get? 0).map Label.index = some (some 1) ∧
    st9.sequence.get? 2 = some (.jump jump9) ∧
    (Jump.execute st9 true jump9).1.index = some 1 := by
  decide

/-- C6: evaluating a `@, name` row while `name` is already registered in
`Routine.labels` raises `ValueError` inside `Label.__init__` (before any
registration), `_eval` catches it and skips the row, and the whole program
state — sequence, label table and heap — is left exactly as it was, so the
first Label is retained everywhere. -/
theorem duplicate_label_row_is_skipped (st : State) (name : String)
    (book : String → Bool)
    (validators : String → Option (PyVal → Except PyErr PyVal))
    (hreg : name ∈ st.labels.map (·.1))
    (hne : splitFirstEq name.data = none) :
    st.evalRow book validators ["@", name] = (st, none) := by
  have h1 : pyLower "@" = "@" := by decide
  simp [State.evalRow, h1, separate_args, hne, SYMBOLS, evalObj,
    bindParams, bindParamsAux, kwValue, Label.make, hreg, PyVal.pyStr]

/-- Witness for C6: after compiling `@, a`, a second `@, a` row is a no-op. -/
theorem duplicate_label_row_is_skipped_witness :
    stDupA.evalRow book0 novals ["@", "a"] = (stDupA, none) :=
  duplicate_label_row_is_skipped stDupA "a" book0 novals (by decide)
    (by decide)

/-- C7: a bound firing Jump writes `link.index` as read at the moment of
execution into `Routine.index`; in particular, after the linked Label's
index is overwritten, the next firing transfers to the new index, never a
stale captured one. -/
theorem jump_reads_link_index_at_execution (st : State) (j : Jump) (lid : Nat)
    (hl : j.link = some lid) (hc : j.counter = 0)
    (hlt : lid < st.heap.length) :
    (Jump.execute st true j).1.index = (st.heap.get ⟨lid, hlt⟩).index ∧
    ∀ lob : Label, ∀ n : Int,
      (Jump.execute
          { st with heap := st.heap.set lid { lob with index := some n } }
          true j).1.index = some n := by
  constructor
  · simp [Jump.execute, Jump.main, hl, hc, List.getElem?_eq_getElem hlt]
  · intro lob n
    simp [Jump.execute, Jump.main, hl, hc]
    rw [List.getElem?_set_eq_of_lt _ hlt]
    rfl

/-- Witness for C7 on the linked scenario program: the fire reads `index 1`;
after relocating the label to index 3, the fire reads 3. -/
theorem jump_reads_link_index_at_execution_witness :
    (Jump.execute st9 true jump9).1.index = some 1 ∧
    (Jump.execute
        { st9 with
            heap := st9.heap.set 0
              { label := "start", index := some 3, links := [2],
                args := [("label", PyVal.pstr "start")] } }
        true jump9).1.index = some 3 := by
  have h := jump_reads_link_index_at_execution st9 jump9 0 rfl rfl (by decide)
  refine ⟨?_, h.2 ⟨"start", some 3, [2], [("label", PyVal.pstr "start")]⟩ 3⟩
  rw [h.1]
  decide

/-- C10: a firing `Point` fetches `move` (and `adjust` when flagged) from
the external command book with an unchecked `.get`; if `move` is absent the
`None` call raises `TypeError` (no skip, no per-instruction diagnostic), and
execution succeeds when the needed entries exist. -/
theorem point_firing_requires_move (book : String → Bool) (p : Point)
    (h0 : p.counter = 0) :
    (book "move" = false → Point.execute book true p = .error .typeError) ∧
    (book "move" = true → (p.adjust = true → book "adjust" = true) →
      Point.execute book true p =
        .ok (p._increment_counter true, p.fireEffects)) := by
  constructor
  · intro hb
    simp [Point.execute, Point.main, h0, hb]
  · intro hb ha
    cases hadj : p.adjust with
    | false => simp [Point.execute, Point.main, h0, hb, hadj]
    | true => simp [Point.execute, Point.main, h0, hb, hadj, ha hadj]

/-- Witness for C10: with an empty book the firing raises; with
`move`/`adjust` present it fires. -/
theorem point_firing_requires_move_witness :
    Point.execute book0 true pointW = .error .typeError ∧
    Point.execute bookMA true pointW =
      .ok (pointW._increment_counter true, pointW.fireEffects) :=
  ⟨(point_firing_requires_move book0 pointW rfl).1 rfl,
   (point_firing_requires_move bookMA pointW rfl).2 rfl (by decide)⟩

/-- One enabled execution of a `Point` when `move` (and `adjust`, if
flagged) are in the book: fire exactly on `counter = 0`, then wrap the
counter. -/
theorem Point.execute_ok (book : String → Bool) (p : Point)
    (hb : book "move" = true) (ha : p.adjust = true → book "adjust" = true) :
    Point.execute book true p =
      .ok ({ p with counter := (p.counter + 1) % p.frequency },
           if p.counter = 0 then p.fireEffects else []) := by
  by_cases h0 : p.counter = 0
  · cases hadj : p.adjust with
    | false =>
      simp [Point.execute, Point.main, h0, hb, hadj, Point._increment_counter]
    | true =>
      simp [Point.execute, Point.main, h0, hb, hadj, ha hadj,
        Point._increment_counter]
  · simp [Point.execute, Point.main, h0, Point._increment_counter]

/-- Iterated enabled executions of a `Point` with `frequency = N`: after `n`
executions the counter is `(counter₀ + n) mod N`, and the `(k+1)`-th
execution fires (move, optional adjust, attached commands in order) exactly
when `(counter₀ + k) mod N = 0`. -/
theorem Point.iterate_spec (book : String → Bool) (N : Int)
    (hb : book "move" = true) :
    ∀ (n : Nat) (q : Point), q.frequency = N → 0 ≤ q.counter →
      q.counter < N → (q.adjust = true → book "adjust" = true) →
      ∃ logs, Point.iterate book true n q =
          .ok ({ q with counter := (q.counter + n) % N }, logs) ∧
        logs.length = n ∧
        ∀ k, k < n → logs.get? k =
          some (if (q.counter + (k : Int)) % N = 0
                then q.fireEffects else []) := by
  intro n
  induction n with
  | zero =>
    intro q hf h0 h1 ha
    have hcnt : (q.counter + ((0 : Nat) : Int)) % N = q.counter := by
      simpa using Int.emod_eq_of_lt h0 h1
    refine ⟨[], ?_, rfl, by intro k hk; omega⟩
    rw [hcnt]
    rfl
  | succ m ih =>
    intro q hf h0 h1 ha
    have hN : 0 < N := lt_of_le_of_lt h0 h1
    have hstep := Point.execute_ok book q hb ha
    set q1 : Point := { q with counter := (q.counter + 1) % q.frequency }
      with hq1
    have hq1c : q1.counter = (q.counter + 1) % N := by rw [hq1, hf]
    have hq1f : q1.frequency = N := by rw [hq1]; exact hf
    obtain ⟨logs, hiter, hlen, hlog⟩ :=
      ih q1 hq1f (by rw [hq1c]; exact Int.emod_nonneg _ (by omega))
        (by rw [hq1c]; exact Int.emod_lt_of_pos _ hN)
        (by rw [hq1]; exact ha)
    have heff : Point.fireEffects q1 = Point.fireEffects q := by
      rw [hq1]; rfl
    refine ⟨(if q.counter = 0 then q.fireEffects else []) :: logs, ?_,
      by simp [hlen], ?_⟩
    · show (match Point.execute book true q with
        | Except.error e => Except.error e
        | Except.ok (p1, effs) =>
          match Point.iterate book true m p1 with
          | Except.error e => Except.error e
          | Except.ok (p2, logs) => Except.ok (p2, effs :: logs)) = _
      rw [hstep]
      show (match Point.iterate book true m q1 with
        | Except.error e => Except.error e
        | Except.ok (p2, logs) => Except.ok (p2, _ :: logs)) = _
      rw [hiter]
      show Except.ok ({ q1 with counter := (q1.counter + (m : Int)) % N }, _)
        = _
      have hc2 : (q1.counter + (m : Int)) % N =
          (q.counter + ((m + 1 : Nat) : Int)) % N := by
        rw [hq1c, Int.emod_add_emod]
        congr 1
        push_cast
        ring
      rw [hq1, hc2]
    · intro k hk
      cases k with
      | zero =>
        have hcnt : (q.counter + ((0 : Nat) : Int)) % N = q.counter := by
          simpa using Int.emod_eq_of_lt h0 h1
        show some _ = some _
        rw [hcnt]
      | succ k' =>
        have hk' : k' < m := by omega
        have hl := hlog k' hk'
        show logs.get? k' = _
        rw [hl, heff]
        have hcond : (q1.counter + (k' : Int)) % N =
            (q.counter + ((k' + 1 : Nat) : Int)) % N := by
          rw [hq1c, Int.emod_add_emod]
          congr 1
          push_cast
          ring
        rw [hcond]

/-- C4: a Waypoint constructed with `skip=false` (so `counter₀ = 0`) and
frequency `N`, with any list of attached Actions, fires on its 1st,
`(N+1)`-th, `(2N+1)`-th, ... enabled executions — `logs.get? k` is the
full fire-effect list (move, optional adjust, every attached command in
authoring order) exactly when `k mod N = 0` — and on every other execution
produces no effect and only advances the counter to `(k+1) mod N`. -/
theorem waypoint_firing_schedule
    (x y fr sk ad : PyVal) (p0 : Point) (cs : List Cmd) (book : String → Bool)
    (hmk : Point.make x y fr sk ad = .ok p0)
    (hskip : validate_boolean sk = .ok false)
    (hmove : book "move" = true)
    (hadj : p0.adjust = true → book "adjust" = true)
    (n : Nat) :
    ∃ logs,
      Point.iterate book true n { p0 with commands := cs } =
        .ok ({ p0 with
                 commands := cs
                 counter := (n : Int) % p0.frequency }, logs) ∧
      logs.length = n ∧
      ∀ k, k < n → logs.get? k =
        some (if (k : Int) % p0.frequency = 0
              then Point.fireEffects { p0 with commands := cs } else []) := by
  obtain ⟨xv, yv, fv, sb, ab, hx, hy, hf, hs, ha2, rfl⟩ := point_make_inversion hmk
  have hsb : sb = false := by
    rw [hs] at hskip
    cases hskip
    rfl
  subst hsb
  have hfv := validate_nonzero_int_ok_pos hf
  obtain ⟨logs, h1, h2, h3⟩ :=
    Point.iterate_spec book fv hmove n
      { x := xv, y := yv, frequency := fv, counter := (if false then 1 else 0),
        adjust := ab, commands := cs,
        args := [("x", x), ("y", y), ("frequency", fr),
                 ("skip", sk), ("adjust", ad)] }
      rfl (by simp) (by simpa using (by omega : (0:Int) < fv)) hadj
  refine ⟨logs, ?_, h2, ?_⟩
  · simpa using h1
  · intro k hk
    simpa using h3 k hk

/-- Witness for C4: three executions of `*, 1, 2, frequency=2` with
`move`/`adjust` available fire on executions 1 and 3 only. -/
theorem waypoint_firing_schedule_witness :
    Point.make (.pstr "1") (.pstr "2") (.pint 2) (.pstr "False")
        (.pstr "False") = .ok pointW ∧
    ∃ logs,
      Point.iterate bookMA true 3 { pointW with commands := [] } =
        .ok ({ pointW with
                 commands := []
                 counter := (3 : Int) % pointW.frequency }, logs) ∧
      logs.length = 3 ∧
      ∀ k, k < 3 → logs.get? k =
        some (if (k : Int) % pointW.frequency = 0
              then Point.fireEffects { pointW with commands := [] } else []) :=
  ⟨by decide,
   waypoint_firing_schedule (.pstr "1") (.pstr "2") (.pint 2) (.pstr "False")
     (.pstr "False") pointW [] bookMA (by decide) (by decide) rfl
     (by decide) 3⟩

/-! ## Round-trip lemmas (serialization) -/

theorem mk_data (s : String) : String.mk s.data = s := rfl

theorem splitOnChar_not_mem {c : Char} {l : List Char} (h : c ∉ l) :
    splitOnChar c l = [l] := by
  induction l with
  | nil => rfl
  | cons x xs ih =>
    simp only [List.mem_cons, not_or] at h
    have hne : ¬ (x = c) := fun he => h.1 (he ▸ rfl)
    simp [splitOnChar, ih h.2, if_neg hne]

theorem splitOnChar_cons_self (c : Char) (l : List Char) :
    splitOnChar c (c :: l) = [] :: splitOnChar c l := by
  simp [splitOnChar]

theorem splitOnChar_cons_ne {c x : Char} (l : List Char) (h : ¬ x = c) :
    splitOnChar c (x :: l) =
      match splitOnChar c l with
      | [] => [[x]]
      | f :: t => (x :: f) :: t := by
  simp [splitOnChar, if_neg h]

theorem splitOnChar_append {c : Char} {a : List Char} (b : List Char)
    (h : c ∉ a) : splitOnChar c (a ++ c :: b) = a :: splitOnChar c b := by
  induction a with
  | nil => simp [splitOnChar]
  | cons x xs ih =>
    simp only [List.mem_cons, not_or] at h
    have hne : ¬ (x = c) := fun he => h.1 (he ▸ rfl)
    rw [List.cons_append, splitOnChar_cons_ne _ hne, ih h.2]

theorem not_mem_joinFields {c : Char} (h1 : c ≠ ',') (h2 : c ≠ ' ') :
    ∀ fs : List (List Char), (∀ f ∈ fs, c ∉ f) → c ∉ joinFields fs := by
  intro fs
  induction fs with
  | nil => intro _; simp [joinFields]
  | cons f gs ih =>
    intro h
    cases gs with
    | nil => simpa [joinFields] using h f (by simp)
    | cons g gs' =>
      show c ∉ f ++ ',' :: ' ' :: joinFields (g :: gs')
      simp only [List.mem_append, List.mem_cons, not_or]
      exact ⟨h f (by simp), h1, h2,
        ih (fun x hx => h x (List.mem_cons_of_mem _ hx))⟩

theorem splitOnChar_joinFields :
    ∀ (f0 : List Char) (fs : List (List Char)), ',' ∉ f0 →
      (∀ f ∈ fs, ',' ∉ f) →
      splitOnChar ',' (joinFields (f0 :: fs)) =
        f0 :: fs.map (fun f => ' ' :: f) := by
  intro f0 fs
  induction fs generalizing f0 with
  | nil =>
    intro h0 _
    simp [joinFields, splitOnChar_not_mem h0]
  | cons f1 gs ih =>
    intro h0 h
    show splitOnChar ',' (f0 ++ ',' :: ' ' :: joinFields (f1 :: gs)) = _
    rw [splitOnChar_append _ h0,
      splitOnChar_cons_ne _ (by decide : ¬ ' ' = ','),
      ih f1 (h f1 (by simp)) (fun x hx => h x (List.mem_cons_of_mem _ hx))]
    simp

theorem splitRowChars_joinFields (f0 : List Char) (fs : List (List Char))
    (h0 : ',' ∉ f0) (hc : ∀ f ∈ fs, ',' ∉ f)
    (hsp : ∀ f ∈ fs, f.dropWhile (fun c => c = ' ') = f) :
    splitRowChars (joinFields (f0 :: fs)) =
      String.mk f0 :: fs.map String.mk := by
  unfold splitRowChars
  rw [splitOnChar_joinFields f0 fs h0 hc]
  show String.mk f0 :: (fs.map (fun f => ' ' :: f)).map
      (fun l => String.mk (l.dropWhile (fun c => c = ' '))) = _
  rw [List.map_map]
  congr 1
  apply List.map_congr_left
  intro f hf
  show String.mk ((' ' :: f).dropWhile (fun c => c = ' ')) = String.mk f
  rw [List.dropWhile_cons_of_pos (by decide), hsp f hf]

theorem splitFirstEq_append {a : List Char} (b : List Char) (h : '=' ∉ a) :
    splitFirstEq (a ++ '=' :: b) = some (a, b) := by
  induction a with
  | nil => simp [splitFirstEq]
  | cons x xs ih =>
    simp only [List.mem_cons, not_or] at h
    have hne : ¬ (x = '=') := fun he => h.1 (he ▸ rfl)
    rw [List.cons_append]
    simp [splitFirstEq, if_neg hne, ih h.2]

theorem decodeRows_mk (line : List Char) (hn : '\n' ∉ line)
    (hne : line ≠ []) :
    decodeRows (String.mk line) = [splitRowChars line] := by
  unfold decodeRows
  rw [show (String.mk line).data = line from rfl, splitOnChar_not_mem hn]
  simp [hne]

theorem decodeRows_newline_mk (line : List Char) (hn : '\n' ∉ line)
    (hne : line ≠ []) :
    decodeRows (String.mk ('\n' :: line)) = [splitRowChars line] := by
  unfold decodeRows
  rw [show (String.mk ('\n' :: line)).data = '\n' :: line from rfl,
    splitOnChar_cons_self, splitOnChar_not_mem hn]
  simp [hne]



theorem kwValue_mem {kwargs : List (String × PyVal)} {k : String} {v : PyVal}
    (h : kwValue kwargs k = some v) : ∃ k', (k', v) ∈ kwargs := by
  unfold kwValue at h
  cases hf : kwargs.reverse.find? (fun kv => kv.1 = k) with
  | none => rw [hf] at h; cases h
  | some kv =>
    rw [hf] at h
    cases h
    have := List.mem_of_find?_eq_some hf
    exact ⟨kv.1, by
      rw [List.mem_reverse] at this
      simpa using this⟩

theorem bindParamsAux_zip_mem (kwargs : List (String × PyVal)) :
    ∀ (params : List (String × Option PyVal)) (args : List PyVal)
      (vs : List PyVal), bindParamsAux kwargs params args = .ok vs →
      ∀ pv ∈ params.zip vs,
        pv.2 ∈ args ∨ (∃ k, (k, pv.2) ∈ kwargs) ∨ pv.1.2 = some pv.2 := by
  intro params
  induction params with
  | nil =>
    intro args vs h pv hpv
    simp at hpv
  | cons pr ps ih =>
    intro args vs h pv hpv
    obtain ⟨name, dflt⟩ := pr
    cases args with
    | cons a as =>
      simp only [bindParamsAux] at h
      split at h
      · cases h
      · cases hrec : bindParamsAux kwargs ps as with
        | error e => rw [hrec] at h; cases h
        | ok rest =>
          rw [hrec] at h
          cases h
          rcases List.mem_cons.mp hpv with he | hm
          · subst he
            exact Or.inl (by simp)
          · rcases ih as rest hrec pv hm with h1 | h2 | h3
            · exact Or.inl (List.mem_cons_of_mem _ h1)
            · exact Or.inr (Or.inl h2)
            · exact Or.inr (Or.inr h3)
    | nil =>
      simp only [bindParamsAux] at h
      cases hkw : kwValue kwargs name with
      | some v =>
        rw [hkw] at h
        cases hrec : bindParamsAux kwargs ps [] with
        | error e => rw [hrec] at h; cases h
        | ok rest =>
          rw [hrec] at h
          cases h
          rcases List.mem_cons.mp hpv with he | hm
          · subst he
            exact Or.inr (Or.inl (kwValue_mem hkw))
          · rcases ih [] rest hrec pv hm with h1 | h2 | h3
            · simp at h1
            · exact Or.inr (Or.inl h2)
            · exact Or.inr (Or.inr h3)
      | none =>
        rw [hkw] at h
        cases dflt with
        | some d =>
          cases hrec : bindParamsAux kwargs ps [] with
          | error e => rw [hrec] at h; cases h
          | ok rest =>
            rw [hrec] at h
            cases h
            rcases List.mem_cons.mp hpv with he | hm
            · subst he
              exact Or.inr (Or.inr rfl)
            · rcases ih [] rest hrec pv hm with h1 | h2 | h3
              · simp at h1
              · exact Or.inr (Or.inl h2)
              · exact Or.inr (Or.inr h3)
        | none => cases h

theorem bindParams_zip_mem {params : List (String × Option PyVal)}
    {args : List PyVal} {kwargs : List (String × PyVal)} {vs : List PyVal}
    (h : bindParams params args kwargs = .ok vs) :
    ∀ pv ∈ params.zip vs,
      pv.2 ∈ args ∨ (∃ k, (k, pv.2) ∈ kwargs) ∨ pv.1.2 = some pv.2 := by
  unfold bindParams at h
  split at h
  · cases h
  · exact bindParamsAux_zip_mem kwargs params args vs h

theorem separate_args_pstr (fields : List String) :
    (∀ v ∈ (separate_args fields).1, ∃ s, v = PyVal.pstr s) ∧
    (∀ kv ∈ (separate_args fields).2, ∃ s, kv.2 = PyVal.pstr s) := by
  induction fields with
  | nil => simp [separate_args]
  | cons f fs ih =>
    simp only [separate_args]
    cases hsp : splitFirstEq f.data with
    | none =>
      constructor
      · intro v hv
        rcases List.mem_cons.mp hv with he | hm
        · exact ⟨f, he⟩
        · exact ih.1 v hm
      · exact ih.2
    | some kv =>
      constructor
      · exact ih.1
      · intro kv2 hkv
        rcases List.mem_cons.mp hkv with he | hm
        · exact ⟨String.mk kv.2, by rw [he]⟩
        · exact ih.2 kv2 hm



theorem separate_args_kvfields :
    ∀ kvs : List (String × PyVal), (∀ kv ∈ kvs, '=' ∉ kv.1.data) →
    separate_args (kvs.map
        (fun kv => String.mk (kv.1.data ++ '=' :: kv.2.pyStr.data))) =
      ([], kvs.map (fun kv => (kv.1, PyVal.pstr kv.2.pyStr))) := by
  intro kvs
  induction kvs with
  | nil => intro _; rfl
  | cons kv kvs ih =>
    intro h
    simp only [List.map_cons, separate_args,
      ih (fun x hx => h x (List.mem_cons_of_mem _ hx))]
    rw [splitFirstEq_append _ (h kv (by simp))]

theorem bindParams_point_kwargs (vx vy vf vs2 va : PyVal) :
    bindParams pointParams []
      [("x", vx), ("y", vy), ("frequency", vf), ("skip", vs2),
       ("adjust", va)] = .ok [vx, vy, vf, vs2, va] := rfl

theorem bindParams_label_kwargs (vl : PyVal) :
    bindParams labelParams [] [("label", vl)] = .ok [vl] := rfl

theorem bindParams_jump_kwargs (vl vf vs2 : PyVal) :
    bindParams jumpParams []
      [("label", vl), ("frequency", vf), ("skip", vs2)] =
      .ok [vl, vf, vs2] := rfl



theorem point_make_stringify {x y fr sk ad : PyVal} {p : Point}
    (hmk : Point.make x y fr sk ad = .ok p)
    (hx : ∃ s, x = .pstr s) (hy : ∃ s, y = .pstr s)
    (hfr : (∃ s, fr = .pstr s) ∨ fr = .pint 1)
    (hsk : ∃ s, sk = .pstr s) (had : ∃ s, ad = .pstr s) :
    Point.make (.pstr x.pyStr) (.pstr y.pyStr) (.pstr fr.pyStr)
        (.pstr sk.pyStr) (.pstr ad.pyStr) =
      .ok { p with
              args := p.args.map (fun kv => (kv.1, PyVal.pstr kv.2.pyStr)) } := by
  obtain ⟨sx, rfl⟩ := hx
  obtain ⟨sy, rfl⟩ := hy
  obtain ⟨ssk, rfl⟩ := hsk
  obtain ⟨sad, rfl⟩ := had
  obtain ⟨xv, yv, fv, sb, ab, hxv, hyv, hfv, hsv, hav, rfl⟩ :=
    point_make_inversion hmk
  rcases hfr with ⟨sf, rfl⟩ | rfl
  · show Point.make (.pstr sx) (.pstr sy) (.pstr sf) (.pstr ssk) (.pstr sad)
      = _
    unfold Point.make
    rw [hxv, hyv, hfv, hsv, hav]
    rfl
  · show Point.make (.pstr sx) (.pstr sy) (.pstr "1") (.pstr ssk) (.pstr sad)
      = _
    have hfv1 : fv = 1 := by
      simp [validate_nonzero_int] at hfv
      omega
    subst hfv1
    unfold Point.make
    rw [hxv, hyv, hsv, hav,
      show validate_nonzero_int (.pstr "1") = .ok 1 from by decide]
    rfl

theorem label_make_stringify {l : PyVal} {lob : Label}
    (hmk : Label.make l [] = .ok lob) (hl : ∃ s, l = .pstr s) :
    Label.make (.pstr l.pyStr) [] =
      .ok { lob with
              args := lob.args.map
                (fun kv => (kv.1, PyVal.pstr kv.2.pyStr)) } := by
  obtain ⟨s, rfl⟩ := hl
  unfold Label.make at hmk ⊢
  simp only [List.not_mem_nil, if_false] at hmk ⊢
  cases hmk
  rfl

theorem jump_make_stringify {l fr sk : PyVal} {j : Jump}
    (hmk : Jump.make l fr sk = .ok j)
    (hl : ∃ s, l = .pstr s)
    (hfr : (∃ s, fr = .pstr s) ∨ fr = .pint 1)
    (hsk : ∃ s, sk = .pstr s) :
    Jump.make (.pstr l.pyStr) (.pstr fr.pyStr) (.pstr sk.pyStr) =
      .ok { j with
              args := j.args.map (fun kv => (kv.1, PyVal.pstr kv.2.pyStr)) } := by
  obtain ⟨sl, rfl⟩ := hl
  obtain ⟨ssk, rfl⟩ := hsk
  obtain ⟨fv, sb, hfv, hsv, rfl⟩ := jump_make_inversion hmk
  rcases hfr with ⟨sf, rfl⟩ | rfl
  · show Jump.make (.pstr sl) (.pstr sf) (.pstr ssk) = _
    unfold Jump.make
    rw [hfv, hsv]
    rfl
  · show Jump.make (.pstr sl) (.pstr "1") (.pstr ssk) = _
    have hfv1 : fv = 1 := by
      simp [validate_nonzero_int] at hfv
      omega
    subst hfv1
    unfold Jump.make
    rw [hsv, show validate_nonzero_int (.pstr "1") = .ok 1 from by decide]
    rfl



theorem not_mem_key_val {c : Char} {key val : List Char}
    (hk : c ∉ key) (he : ¬ c = '=') (hv : c ∉ val) :
    c ∉ key ++ '=' :: val := by
  simp only [List.mem_append, List.mem_cons, not_or]
  exact ⟨hk, he, hv⟩

theorem joinFields_cons_ne_nil {f0 : List Char} (fs : List (List Char))
    (h : f0 ≠ []) : joinFields (f0 :: fs) ≠ [] := by
  cases fs with
  | nil => simpa [joinFields] using h
  | cons g gs => simp [joinFields]

theorem roundtrip_point
    (validators : String → Option (PyVal → Except PyErr PyVal))
    (vx vy vf vsk vad : PyVal) (p' : Point)
    (hmk : Point.make vx vy vf vsk vad = .ok p')
    (hxp : ∃ s, vx = .pstr s) (hyp2 : ∃ s, vy = .pstr s)
    (hfp : (∃ s, vf = .pstr s) ∨ vf = .pint 1)
    (hsp2 : ∃ s, vsk = .pstr s) (hap : ∃ s, vad = .pstr s)
    (hclean : ∀ kv ∈ p'.args, ',' ∉ kv.2.pyStr.data ∧ '\n' ∉ kv.2.pyStr.data) :
    decode validators (Parsed.point p').encode =
      some (Parsed.point p').stringifyArgs := by
  have hmk2 := point_make_stringify hmk hxp hyp2 hfp hsp2 hap
  obtain ⟨xv, yv, fv, sb, ab, hxv, hyv, hfv, hsv, hav, rfl⟩ :=
    point_make_inversion hmk
  have hc1 := hclean ("x", vx) (by simp)
  have hc2 := hclean ("y", vy) (by simp)
  have hc3 := hclean ("frequency", vf) (by simp)
  have hc4 := hclean ("skip", vsk) (by simp)
  have hc5 := hclean ("adjust", vad) (by simp)
  have hch : ∀ f ∈ ["x".data ++ '=' :: vx.pyStr.data,
      "y".data ++ '=' :: vy.pyStr.data,
      "frequency".data ++ '=' :: vf.pyStr.data,
      "skip".data ++ '=' :: vsk.pyStr.data,
      "adjust".data ++ '=' :: vad.pyStr.data], ',' ∉ f := by
    intro f hf
    simp only [List.mem_cons, List.not_mem_nil, or_false] at hf
    rcases hf with rfl | rfl | rfl | rfl | rfl
    · exact not_mem_key_val (by decide) (by decide) hc1.1
    · exact not_mem_key_val (by decide) (by decide) hc2.1
    · exact not_mem_key_val (by decide) (by decide) hc3.1
    · exact not_mem_key_val (by decide) (by decide) hc4.1
    · exact not_mem_key_val (by decide) (by decide) hc5.1
  have hnl : ∀ f ∈ ["x".data ++ '=' :: vx.pyStr.data,
      "y".data ++ '=' :: vy.pyStr.data,
      "frequency".data ++ '=' :: vf.pyStr.data,
      "skip".data ++ '=' :: vsk.pyStr.data,
      "adjust".data ++ '=' :: vad.pyStr.data], '\n' ∉ f := by
    intro f hf
    simp only [List.mem_cons, List.not_mem_nil, or_false] at hf
    rcases hf with rfl | rfl | rfl | rfl | rfl
    · exact not_mem_key_val (by decide) (by decide) hc1.2
    · exact not_mem_key_val (by decide) (by decide) hc2.2
    · exact not_mem_key_val (by decide) (by decide) hc3.2
    · exact not_mem_key_val (by decide) (by decide) hc4.2
    · exact not_mem_key_val (by decide) (by decide) hc5.2
  have hlineN : '\n' ∉ joinFields ("*".data ::
      ["x".data ++ '=' :: vx.pyStr.data,
       "y".data ++ '=' :: vy.pyStr.data,
       "frequency".data ++ '=' :: vf.pyStr.data,
       "skip".data ++ '=' :: vsk.pyStr.data,
       "adjust".data ++ '=' :: vad.pyStr.data]) := by
    refine not_mem_joinFields (by decide) (by decide) _ ?_
    intro f hf
    rcases List.mem_cons.mp hf with rfl | hf'
    · decide
    · exact hnl f hf'
  have hrows := decodeRows_mk _ hlineN
    (joinFields_cons_ne_nil _ (by decide))
  have hsplit := splitRowChars_joinFields "*".data
    ["x".data ++ '=' :: vx.pyStr.data,
     "y".data ++ '=' :: vy.pyStr.data,
     "frequency".data ++ '=' :: vf.pyStr.data,
     "skip".data ++ '=' :: vsk.pyStr.data,
     "adjust".data ++ '=' :: vad.pyStr.data]
    (by decide) hch
    (by
      intro f hf
      simp only [List.mem_cons, List.not_mem_nil, or_false] at hf
      rcases hf with rfl | rfl | rfl | rfl | rfl <;> rfl)
  have hsep : separate_args
      (["x".data ++ '=' :: vx.pyStr.data,
        "y".data ++ '=' :: vy.pyStr.data,
        "frequency".data ++ '=' :: vf.pyStr.data,
        "skip".data ++ '=' :: vsk.pyStr.data,
        "adjust".data ++ '=' :: vad.pyStr.data].map String.mk) =
      ([], [("x", PyVal.pstr vx.pyStr), ("y", PyVal.pstr vy.pyStr),
            ("frequency", PyVal.pstr vf.pyStr), ("skip", PyVal.pstr vsk.pyStr),
            ("adjust", PyVal.pstr vad.pyStr)]) :=
    separate_args_kvfields
      [("x", vx), ("y", vy), ("frequency", vf), ("skip", vsk),
       ("adjust", vad)]
      (by
        intro kv hkv
        simp only [List.mem_cons, List.not_mem_nil, or_false] at hkv
        rcases hkv with rfl | rfl | rfl | rfl | rfl
        · exact (by decide : ('=' : Char) ∉ "x".data)
        · exact (by decide : ('=' : Char) ∉ "y".data)
        · exact (by decide : ('=' : Char) ∉ "frequency".data)
        · exact (by decide : ('=' : Char) ∉ "skip".data)
        · exact (by decide : ('=' : Char) ∉ "adjust".data))
  show decode validators (String.mk (joinFields ("*".data ::
      ["x".data ++ '=' :: vx.pyStr.data,
       "y".data ++ '=' :: vy.pyStr.data,
       "frequency".data ++ '=' :: vf.pyStr.data,
       "skip".data ++ '=' :: vsk.pyStr.data,
       "adjust".data ++ '=' :: vad.pyStr.data]))) = _
  unfold decode
  rw [hrows, hsplit]
  show parseRow validators ("*" ::
      ["x".data ++ '=' :: vx.pyStr.data,
       "y".data ++ '=' :: vy.pyStr.data,
       "frequency".data ++ '=' :: vf.pyStr.data,
       "skip".data ++ '=' :: vsk.pyStr.data,
       "adjust".data ++ '=' :: vad.pyStr.data].map String.mk) = _
  simp only [parseRow]
  rw [show pyLower "*" = "*" from by decide]
  rw [if_pos (by decide : ("*" : String) ∈ SYMBOLS)]
  rw [hsep]
  have hev : evalObj validators [] "*" []
      [("x", PyVal.pstr vx.pyStr), ("y", PyVal.pstr vy.pyStr),
       ("frequency", PyVal.pstr vf.pyStr), ("skip", PyVal.pstr vsk.pyStr),
       ("adjust", PyVal.pstr vad.pyStr)] =
      .ok (.point
        { x := xv
          y := yv
          frequency := fv
          counter := (if sb = true then 1 else 0)
          adjust := ab
          commands := []
          args := [("x", PyVal.pstr vx.pyStr), ("y", PyVal.pstr vy.pyStr),
                   ("frequency", PyVal.pstr vf.pyStr),
                   ("skip", PyVal.pstr vsk.pyStr),
                   ("adjust", PyVal.pstr vad.pyStr)] }) := by
    unfold evalObj
    rw [if_pos rfl, bindParams_point_kwargs]
    show (match Point.make (PyVal.pstr vx.pyStr) (PyVal.pstr vy.pyStr)
        (PyVal.pstr vf.pyStr) (PyVal.pstr vsk.pyStr) (PyVal.pstr vad.pyStr) with
      | Except.error e => Except.error e
      | Except.ok p => Except.ok (Parsed.point p)) = _
    rw [hmk2]
    rfl
  show (match evalObj validators [] "*" []
      [("x", PyVal.pstr vx.pyStr), ("y", PyVal.pstr vy.pyStr),
       ("frequency", PyVal.pstr vf.pyStr), ("skip", PyVal.pstr vsk.pyStr),
       ("adjust", PyVal.pstr vad.pyStr)] with
    | Except.ok p => some p
    | Except.error a => none) = _
  rw [hev]
  rfl


theorem roundtrip_label
    (validators : String → Option (PyVal → Except PyErr PyVal))
    (vl : PyVal) (lob : Label)
    (hmk : Label.make vl [] = .ok lob)
    (hlp : ∃ s, vl = .pstr s)
    (hclean : ∀ kv ∈ lob.args, ',' ∉ kv.2.pyStr.data ∧ '\n' ∉ kv.2.pyStr.data) :
    decode validators (Parsed.plabel lob).encode =
      some (Parsed.plabel lob).stringifyArgs := by
  have hmk2 := label_make_stringify hmk hlp
  obtain ⟨s, rfl⟩ := hlp
  unfold Label.make at hmk
  simp only [List.not_mem_nil, if_false] at hmk
  cases hmk
  have hc1 := hclean ("label", PyVal.pstr s) (by simp)
  have hch : ∀ f ∈ ["label".data ++ '=' ::
      (PyVal.pstr s).pyStr.data], ',' ∉ f := by
    intro f hf
    simp only [List.mem_cons, List.not_mem_nil, or_false] at hf
    rcases hf with rfl
    exact not_mem_key_val (by decide) (by decide) hc1.1
  have hlineN : '\n' ∉ joinFields ("@".data ::
      ["label".data ++ '=' :: (PyVal.pstr s).pyStr.data]) := by
    refine not_mem_joinFields (by decide) (by decide) _ ?_
    intro f hf
    rcases List.mem_cons.mp hf with rfl | hf'
    · decide
    · simp only [List.mem_cons, List.not_mem_nil, or_false] at hf'
      rcases hf' with rfl
      exact not_mem_key_val (by decide) (by decide) hc1.2
  have hrows := decodeRows_newline_mk _ hlineN
    (joinFields_cons_ne_nil _ (by decide))
  have hsplit := splitRowChars_joinFields "@".data
    ["label".data ++ '=' :: (PyVal.pstr s).pyStr.data]
    (by decide) hch
    (by
      intro f hf
      simp only [List.mem_cons, List.not_mem_nil, or_false] at hf
      rcases hf with rfl
      rfl)
  have hsep : separate_args
      (["label".data ++ '=' :: (PyVal.pstr s).pyStr.data].map String.mk) =
      ([], [("label", PyVal.pstr (PyVal.pstr s).pyStr)]) :=
    separate_args_kvfields [("label", PyVal.pstr s)]
      (by
        intro kv hkv
        simp only [List.mem_cons, List.not_mem_nil, or_false] at hkv
        rcases hkv with rfl
        exact (by decide : ('=' : Char) ∉ "label".data))
  show decode validators (String.mk ('\n' :: joinFields ("@".data ::
      ["label".data ++ '=' :: (PyVal.pstr s).pyStr.data]))) = _
  unfold decode
  rw [hrows, hsplit]
  show parseRow validators ("@" ::
      ["label".data ++ '=' :: (PyVal.pstr s).pyStr.data].map String.mk) = _
  simp only [parseRow]
  rw [show pyLower "@" = "@" from by decide]
  rw [if_pos (by decide : ("@" : String) ∈ SYMBOLS)]
  rw [hsep]
  have hev : evalObj validators [] "@" []
      [("label", PyVal.pstr (PyVal.pstr s).pyStr)] =
      .ok (.plabel
        { label := (PyVal.pstr s).pyStr
          index := none
          links := []
          args := [("label", PyVal.pstr (PyVal.pstr s).pyStr)] }) := by
    unfold evalObj
    rw [if_neg (by decide : ¬ ("@" : String) = "*"), if_pos rfl,
      bindParams_label_kwargs]
    show (match Label.make (PyVal.pstr (PyVal.pstr s).pyStr) [] with
      | Except.error e => Except.error e
      | Except.ok lob => Except.ok (Parsed.plabel lob)) = _
    rw [hmk2]
    rfl
  show (match evalObj validators [] "@" []
      [("label", PyVal.pstr (PyVal.pstr s).pyStr)] with
    | Except.ok p => some p
    | Except.error a => none) = _
  rw [hev]
  rfl


theorem roundtrip_jump
    (validators : String → Option (PyVal → Except PyErr PyVal))
    (vl vf vsk : PyVal) (j : Jump)
    (hmk : Jump.make vl vf vsk = .ok j)
    (hlp : ∃ s, vl = .pstr s)
    (hfp : (∃ s, vf = .pstr s) ∨ vf = .pint 1)
    (hsp2 : ∃ s, vsk = .pstr s)
    (hclean : ∀ kv ∈ j.args, ',' ∉ kv.2.pyStr.data ∧ '\n' ∉ kv.2.pyStr.data) :
    decode validators (Parsed.pjump j).encode =
      some (Parsed.pjump j).stringifyArgs := by
  have hmk2 := jump_make_stringify hmk hlp hfp hsp2
  obtain ⟨fv, sb, hfv, hsv, rfl⟩ := jump_make_inversion hmk
  have hc1 := hclean ("label", vl) (by simp)
  have hc2 := hclean ("frequency", vf) (by simp)
  have hc3 := hclean ("skip", vsk) (by simp)
  have hch : ∀ f ∈ ["label".data ++ '=' :: vl.pyStr.data,
      "frequency".data ++ '=' :: vf.pyStr.data,
      "skip".data ++ '=' :: vsk.pyStr.data], ',' ∉ f := by
    intro f hf
    simp only [List.mem_cons, List.not_mem_nil, or_false] at hf
    rcases hf with rfl | rfl | rfl
    · exact not_mem_key_val (by decide) (by decide) hc1.1
    · exact not_mem_key_val (by decide) (by decide) hc2.1
    · exact not_mem_key_val (by decide) (by decide) hc3.1
  have hlineN : '\n' ∉ joinFields (">".data ::
      ["label".data ++ '=' :: vl.pyStr.data,
       "frequency".data ++ '=' :: vf.pyStr.data,
       "skip".data ++ '=' :: vsk.pyStr.data]) := by
    refine not_mem_joinFields (by decide) (by decide) _ ?_
    intro f hf
    rcases List.mem_cons.mp hf with rfl | hf'
    · decide
    · simp only [List.mem_cons, List.not_mem_nil, or_false] at hf'
      rcases hf' with rfl | rfl | rfl
      · exact not_mem_key_val (by decide) (by decide) hc1.2
      · exact not_mem_key_val (by decide) (by decide) hc2.2
      · exact not_mem_key_val (by decide) (by decide) hc3.2
  have hrows := decodeRows_mk _ hlineN
    (joinFields_cons_ne_nil _ (by decide))
  have hsplit := splitRowChars_joinFields ">".data
    ["label".data ++ '=' :: vl.pyStr.data,
     "frequency".data ++ '=' :: vf.pyStr.data,
     "skip".data ++ '=' :: vsk.pyStr.data]
    (by decide) hch
    (by
      intro f hf
      simp only [List.mem_cons, List.not_mem_nil, or_false] at hf
      rcases hf with rfl | rfl | rfl <;> rfl)
  have hsep : separate_args
      (["label".data ++ '=' :: vl.pyStr.data,
        "frequency".data ++ '=' :: vf.pyStr.data,
        "skip".data ++ '=' :: vsk.pyStr.data].map String.mk) =
      ([], [("label", PyVal.pstr vl.pyStr),
            ("frequency", PyVal.pstr vf.pyStr),
            ("skip", PyVal.pstr vsk.pyStr)]) :=
    separate_args_kvfields
      [("label", vl), ("frequency", vf), ("skip", vsk)]
      (by
        intro kv hkv
        simp only [List.mem_cons, List.not_mem_nil, or_false] at hkv
        rcases hkv with rfl | rfl | rfl
        · exact (by decide : ('=' : Char) ∉ "label".data)
        · exact (by decide : ('=' : Char) ∉ "frequency".data)
        · exact (by decide : ('=' : Char) ∉ "skip".data))
  show decode validators (String.mk (joinFields (">".data ::
      ["label".data ++ '=' :: vl.pyStr.data,
       "frequency".data ++ '=' :: vf.pyStr.data,
       "skip".data ++ '=' :: vsk.pyStr.data]))) = _
  unfold decode
  rw [hrows, hsplit]
  show parseRow validators (">" ::
      ["label".data ++ '=' :: vl.pyStr.data,
       "frequency".data ++ '=' :: vf.pyStr.data,
       "skip".data ++ '=' :: vsk.pyStr.data].map String.mk) = _
  simp only [parseRow]
  rw [show pyLower ">" = ">" from by decide]
  rw [if_pos (by decide : (">" : String) ∈ SYMBOLS)]
  rw [hsep]
  have hev : evalObj validators [] ">" []
      [("label", PyVal.pstr vl.pyStr), ("frequency", PyVal.pstr vf.pyStr),
       ("skip", PyVal.pstr vsk.pyStr)] =
      .ok (.pjump
        { label := vl.pyStr
          frequency := fv
          counter := (if sb = true then 1 else 0)
          link := none
          args := [("label", PyVal.pstr vl.pyStr),
                   ("frequency", PyVal.pstr vf.pyStr),
                   ("skip", PyVal.pstr vsk.pyStr)] }) := by
    unfold evalObj
    rw [if_neg (by decide : ¬ (">" : String) = "*"),
      if_neg (by decide : ¬ (">" : String) = "@"), if_pos rfl,
      bindParams_jump_kwargs]
    show (match Jump.make (PyVal.pstr vl.pyStr) (PyVal.pstr vf.pyStr)
        (PyVal.pstr vsk.pyStr) with
      | Except.error e => Except.error e
      | Except.ok j => Except.ok (Parsed.pjump j)) = _
    rw [hmk2]
    rfl
  show (match evalObj validators [] ">" []
      [("label", PyVal.pstr vl.pyStr), ("frequency", PyVal.pstr vf.pyStr),
       ("skip", PyVal.pstr vsk.pyStr)] with
    | Except.ok p => some p
    | Except.error a => none) = _
  rw [hev]
  rfl

theorem setting_make_inversion
    {validators : String → Option (PyVal → Except PyErr PyVal)}
    {k v : PyVal} {s : Setting}
    (h : Setting.make validators k v = .ok s) :
    ∃ val coerced, validators k.pyStr = some val ∧ val v = .ok coerced ∧
      s = { key := k.pyStr, value := coerced,
            args := [("key", k), ("value", v)] } := by
  unfold Setting.make at h
  cases hval : validators k.pyStr with
  | none => rw [hval] at h; cases h
  | some val =>
    rw [hval] at h
    replace h : (match val v with
        | Except.error e => Except.error e
        | Except.ok coerced =>
          Except.ok { key := k.pyStr, value := coerced,
                      args := [("key", k), ("value", v)] }) =
        Except.ok s := h
    cases hco : val v with
    | error e => rw [hco] at h; cases h
    | ok coerced =>
      rw [hco] at h
      cases h
      exact ⟨val, coerced, rfl, hco, rfl⟩

theorem bindParams_setting_kwargs (vk vv : PyVal) :
    bindParams settingParams [] [("key", vk), ("value", vv)] =
      .ok [vk, vv] := rfl

theorem setting_make_stringify
    {validators : String → Option (PyVal → Except PyErr PyVal)}
    {k v : PyVal} {s : Setting}
    (hmk : Setting.make validators k v = .ok s)
    (hk : ∃ t, k = .pstr t) (hv : ∃ t, v = .pstr t) :
    Setting.make validators (.pstr k.pyStr) (.pstr v.pyStr) =
      .ok { s with
              args := s.args.map (fun kv => (kv.1, PyVal.pstr kv.2.pyStr)) } := by
  obtain ⟨tk, rfl⟩ := hk
  obtain ⟨tv, rfl⟩ := hv
  obtain ⟨val, coerced, hval, hco, rfl⟩ := setting_make_inversion hmk
  show Setting.make validators (.pstr tk) (.pstr tv) = _
  unfold Setting.make
  replace hval : validators tk = some val := hval
  show (match validators tk with
    | none => Except.error PyErr.valueError
    | some v =>
      match v (PyVal.pstr tv) with
      | Except.error e => Except.error e
      | Except.ok coerced =>
        Except.ok ({ key := tk, value := coerced,
                     args := [("key", PyVal.pstr tk),
                              ("value", PyVal.pstr tv)] } : Setting)) = _
  rw [hval]
  show (match val (PyVal.pstr tv) with
    | Except.error e => Except.error e
    | Except.ok coerced =>
      Except.ok ({ key := tk, value := coerced,
                   args := [("key", PyVal.pstr tk),
                            ("value", PyVal.pstr tv)] } : Setting)) = _
  rw [hco]
  rfl

theorem roundtrip_setting
    (validators : String → Option (PyVal → Except PyErr PyVal))
    (vk vv : PyVal) (s : Setting)
    (hmk : Setting.make validators vk vv = .ok s)
    (hkp : ∃ t, vk = .pstr t) (hvp : ∃ t, vv = .pstr t)
    (hclean : ∀ kv ∈ s.args, ',' ∉ kv.2.pyStr.data ∧ '\n' ∉ kv.2.pyStr.data) :
    decode validators (Parsed.psetting s).encode =
      some (Parsed.psetting s).stringifyArgs := by
  have hmk2 := setting_make_stringify hmk hkp hvp
  obtain ⟨val, coerced, hval, hco, rfl⟩ := setting_make_inversion hmk
  have hc1 := hclean ("key", vk) (by simp)
  have hc2 := hclean ("value", vv) (by simp)
  have hch : ∀ f ∈ ["key".data ++ '=' :: vk.pyStr.data,
      "value".data ++ '=' :: vv.pyStr.data], ',' ∉ f := by
    intro f hf
    simp only [List.mem_cons, List.not_mem_nil, or_false] at hf
    rcases hf with rfl | rfl
    · exact not_mem_key_val (by decide) (by decide) hc1.1
    · exact not_mem_key_val (by decide) (by decide) hc2.1
  have hlineN : '\n' ∉ joinFields ("$".data ::
      ["key".data ++ '=' :: vk.pyStr.data,
       "value".data ++ '=' :: vv.pyStr.data]) := by
    refine not_mem_joinFields (by decide) (by decide) _ ?_
    intro f hf
    rcases List.mem_cons.mp hf with rfl | hf'
    · decide
    · simp only [List.mem_cons, List.not_mem_nil, or_false] at hf'
      rcases hf' with rfl | rfl
      · exact not_mem_key_val (by decide) (by decide) hc1.2
      · exact not_mem_key_val (by decide) (by decide) hc2.2
  have hrows := decodeRows_mk _ hlineN
    (joinFields_cons_ne_nil _ (by decide))
  have hsplit := splitRowChars_joinFields "$".data
    ["key".data ++ '=' :: vk.pyStr.data,
     "value".data ++ '=' :: vv.pyStr.data]
    (by decide) hch
    (by
      intro f hf
      simp only [List.mem_cons, List.not_mem_nil, or_false] at hf
      rcases hf with rfl | rfl <;> rfl)
  have hsep : separate_args
      (["key".data ++ '=' :: vk.pyStr.data,
        "value".data ++ '=' :: vv.pyStr.data].map String.mk) =
      ([], [("key", PyVal.pstr vk.pyStr), ("value", PyVal.pstr vv.pyStr)]) :=
    separate_args_kvfields [("key", vk), ("value", vv)]
      (by
        intro kv hkv
        simp only [List.mem_cons, List.not_mem_nil, or_false] at hkv
        rcases hkv with rfl | rfl
        · exact (by decide : ('=' : Char) ∉ "key".data)
        · exact (by decide : ('=' : Char) ∉ "value".data))
  show decode validators (String.mk (joinFields ("$".data ::
      ["key".data ++ '=' :: vk.pyStr.data,
       "value".data ++ '=' :: vv.pyStr.data]))) = _
  unfold decode
  rw [hrows, hsplit]
  show parseRow validators ("$" ::
      ["key".data ++ '=' :: vk.pyStr.data,
       "value".data ++ '=' :: vv.pyStr.data].map String.mk) = _
  simp only [parseRow]
  rw [show pyLower "$" = "$" from by decide]
  rw [if_pos (by decide : ("$" : String) ∈ SYMBOLS)]
  rw [hsep]
  have hev : evalObj validators [] "$" []
      [("key", PyVal.pstr vk.pyStr), ("value", PyVal.pstr vv.pyStr)] =
      .ok (.psetting
        { key := vk.pyStr
          value := coerced
          args := [("key", PyVal.pstr vk.pyStr),
                   ("value", PyVal.pstr vv.pyStr)] }) := by
    unfold evalObj
    rw [if_neg (by decide : ¬ ("$" : String) = "*"),
      if_neg (by decide : ¬ ("$" : String) = "@"),
      if_neg (by decide : ¬ ("$" : String) = ">"),
      bindParams_setting_kwargs]
    show (match Setting.make validators (PyVal.pstr vk.pyStr)
        (PyVal.pstr vv.pyStr) with
      | Except.error e => Except.error e
      | Except.ok s => Except.ok (Parsed.psetting s)) = _
    rw [hmk2]
    rfl
  show (match evalObj validators [] "$" []
      [("key", PyVal.pstr vk.pyStr), ("value", PyVal.pstr vv.pyStr)] with
    | Except.ok p => some p
    | Except.error a => none) = _
  rw [hev]
  rfl

theorem roundtrip_amended
    (validators : String → Option (PyVal → Except PyErr PyVal))
    (row : List String) (p : Parsed)
    (hp : parseRow validators row = some p)
    (hclean : ∀ kv ∈ p.argsOf,
      ',' ∉ kv.2.pyStr.data ∧ '\n' ∉ kv.2.pyStr.data) :
    decode validators p.encode = some p.stringifyArgs := by
  cases row with
  | nil => simp [parseRow] at hp
  | cons f0 rest =>
    simp only [parseRow] at hp
    rcases hsa : separate_args rest with ⟨args, kwargs⟩
    rw [hsa] at hp
    have hsa2 := separate_args_pstr rest
    rw [hsa] at hsa2
    split at hp
    case isTrue hin =>
      cases hev : evalObj validators [] (pyLower f0) args kwargs with
      | error e => rw [hev] at hp; cases hp
      | ok q =>
        rw [hev] at hp
        cases hp
        simp only [SYMBOLS, List.mem_cons, List.not_mem_nil, or_false] at hin
        rcases hin with hs | hs | hs | hs <;> rw [hs] at hev
        · -- Point
          unfold evalObj at hev
          rw [if_pos rfl] at hev
          cases hb : bindParams pointParams args kwargs with
          | error e => rw [hb] at hev; cases hev
          | ok vs =>
            rw [hb] at hev
            have hz := bindParams_zip_mem hb
            rcases vs with _ | ⟨v1, _ | ⟨v2, _ | ⟨v3, _ | ⟨v4, _ |
              ⟨v5, _ | ⟨v6, vr⟩⟩⟩⟩⟩⟩
            · cases hev
            · cases hev
            · cases hev
            · cases hev
            · cases hev
            · replace hev : (match Point.make v1 v2 v3 v4 v5 with
                  | Except.error e => Except.error e
                  | Except.ok q => Except.ok (Parsed.point q)) =
                  Except.ok p := hev
              cases hmk : Point.make v1 v2 v3 v4 v5 with
              | error e => rw [hmk] at hev; cases hev
              | ok p' =>
                rw [hmk] at hev
                cases hev
                have hxp : ∃ s, v1 = PyVal.pstr s := by
                  rcases hz (("x", none), v1) (by simp [pointParams])
                    with h | ⟨k, h⟩ | h
                  · exact hsa2.1 _ h
                  · exact hsa2.2 _ h
                  · cases h
                have hyp2 : ∃ s, v2 = PyVal.pstr s := by
                  rcases hz (("y", none), v2) (by simp [pointParams])
                    with h | ⟨k, h⟩ | h
                  · exact hsa2.1 _ h
                  · exact hsa2.2 _ h
                  · cases h
                have hfp : (∃ s, v3 = PyVal.pstr s) ∨ v3 = PyVal.pint 1 := by
                  rcases hz (("frequency", some (PyVal.pint 1)), v3)
                      (by simp [pointParams]) with h | ⟨k, h⟩ | h
                  · exact Or.inl (hsa2.1 _ h)
                  · exact Or.inl (hsa2.2 _ h)
                  · cases h; exact Or.inr rfl
                have hsp2 : ∃ s, v4 = PyVal.pstr s := by
                  rcases hz (("skip", some (PyVal.pstr "False")), v4)
                      (by simp [pointParams]) with h | ⟨k, h⟩ | h
                  · exact hsa2.1 _ h
                  · exact hsa2.2 _ h
                  · cases h; exact ⟨"False", rfl⟩
                have hap : ∃ s, v5 = PyVal.pstr s := by
                  rcases hz (("adjust", some (PyVal.pstr "False")), v5)
                      (by simp [pointParams]) with h | ⟨k, h⟩ | h
                  · exact hsa2.1 _ h
                  · exact hsa2.2 _ h
                  · cases h; exact ⟨"False", rfl⟩
                exact roundtrip_point validators v1 v2 v3 v4 v5 p' hmk
                  hxp hyp2 hfp hsp2 hap hclean
            · cases hev
        · -- Label
          unfold evalObj at hev
          rw [if_neg (by decide : ¬ ("@" : String) = "*"), if_pos rfl] at hev
          cases hb : bindParams labelParams args kwargs with
          | error e => rw [hb] at hev; cases hev
          | ok vs =>
            rw [hb] at hev
            have hz := bindParams_zip_mem hb
            rcases vs with _ | ⟨v1, _ | ⟨v2, vr⟩⟩
            · cases hev
            · replace hev : (match Label.make v1 [] with
                  | Except.error e => Except.error e
                  | Except.ok q => Except.ok (Parsed.plabel q)) =
                  Except.ok p := hev
              cases hmk : Label.make v1 [] with
              | error e => rw [hmk] at hev; cases hev
              | ok lob =>
                rw [hmk] at hev
                cases hev
                have hlp : ∃ s, v1 = PyVal.pstr s := by
                  rcases hz (("label", none), v1) (by simp [labelParams])
                    with h | ⟨k, h⟩ | h
                  · exact hsa2.1 _ h
                  · exact hsa2.2 _ h
                  · cases h
                exact roundtrip_label validators v1 lob hmk hlp hclean
            · cases hev
        · -- Jump
          unfold evalObj at hev
          rw [if_neg (by decide : ¬ (">" : String) = "*"),
            if_neg (by decide : ¬ (">" : String) = "@"), if_pos rfl] at hev
          cases hb : bindParams jumpParams args kwargs with
          | error e => rw [hb] at hev; cases hev
          | ok vs =>
            rw [hb] at hev
            have hz := bindParams_zip_mem hb
            rcases vs with _ | ⟨v1, _ | ⟨v2, _ | ⟨v3, _ | ⟨v4, vr⟩⟩⟩⟩
            · cases hev
            · cases hev
            · cases hev
            · replace hev : (match Jump.make v1 v2 v3 with
                  | Except.error e => Except.error e
                  | Except.ok q => Except.ok (Parsed.pjump q)) =
                  Except.ok p := hev
              cases hmk : Jump.make v1 v2 v3 with
              | error e => rw [hmk] at hev; cases hev
              | ok j =>
                rw [hmk] at hev
                cases hev
                have hlp : ∃ s, v1 = PyVal.pstr s := by
                  rcases hz (("label", none), v1) (by simp [jumpParams])
                    with h | ⟨k, h⟩ | h
                  · exact hsa2.1 _ h
                  · exact hsa2.2 _ h
                  · cases h
                have hfp : (∃ s, v2 = PyVal.pstr s) ∨ v2 = PyVal.pint 1 := by
                  rcases hz (("frequency", some (PyVal.pint 1)), v2)
                      (by simp [jumpParams]) with h | ⟨k, h⟩ | h
                  · exact Or.inl (hsa2.1 _ h)
                  · exact Or.inl (hsa2.2 _ h)
                  · cases h; exact Or.inr rfl
                have hsp2 : ∃ s, v3 = PyVal.pstr s := by
                  rcases hz (("skip", some (PyVal.pstr "False")), v3)
                      (by simp [jumpParams]) with h | ⟨k, h⟩ | h
                  · exact hsa2.1 _ h
                  · exact hsa2.2 _ h
                  · cases h; exact ⟨"False", rfl⟩
                exact roundtrip_jump validators v1 v2 v3 j hmk hlp hfp
                  hsp2 hclean
            · cases hev
        · -- Setting
          unfold evalObj at hev
          rw [if_neg (by decide : ¬ ("$" : String) = "*"),
            if_neg (by decide : ¬ ("$" : String) = "@"),
            if_neg (by decide : ¬ ("$" : String) = ">")] at hev
          cases hb : bindParams settingParams args kwargs with
          | error e => rw [hb] at hev; cases hev
          | ok vs =>
            rw [hb] at hev
            have hz := bindParams_zip_mem hb
            rcases vs with _ | ⟨v1, _ | ⟨v2, _ | ⟨v3, vr⟩⟩⟩
            · cases hev
            · cases hev
            · replace hev : (match Setting.make validators v1 v2 with
                  | Except.error e => Except.error e
                  | Except.ok q => Except.ok (Parsed.psetting q)) =
                  Except.ok p := hev
              cases hmk : Setting.make validators v1 v2 with
              | error e => rw [hmk] at hev; cases hev
              | ok s =>
                rw [hmk] at hev
                cases hev
                have hkp : ∃ t, v1 = PyVal.pstr t := by
                  rcases hz (("key", none), v1) (by simp [settingParams])
                    with h | ⟨k, h⟩ | h
                  · exact hsa2.1 _ h
                  · exact hsa2.2 _ h
                  · cases h
                have hvp : ∃ t, v2 = PyVal.pstr t := by
                  rcases hz (("value", none), v2) (by simp [settingParams])
                    with h | ⟨k, h⟩ | h
                  · exact hsa2.1 _ h
                  · exact hsa2.2 _ h
                  · cases h
                exact roundtrip_setting validators v1 v2 s hmk hkp hvp hclean
            · cases hev
    case isFalse hin => cases hp

/-- C5 (counterexample): the CSV row `@, "a,b"` (quoted field, so one field
whose value contains a comma) parses to a Label named `a,b`; its encoding
`@, label=a,b` re-tokenizes into three fields, the re-parse binds `label`
twice (`TypeError`) and construction fails, so re-parsing yields no
instruction at all, let alone one with equal fields. -/
theorem roundtrip_fails_for_comma_label :
    parseRow novals ["@", "a,b"] = some labelComma ∧
    decode novals labelComma.encode = none :=
  ⟨by decide, by decide⟩

/-- C5 (amended): for every valid source row — any of the four instruction
kinds — provided every captured argument's string form is comma- and
newline-free, re-parsing the encoded text succeeds and yields an instruction
equal to the original in every validated field (coordinates, frequency,
counter, adjust, label, setting key and coerced value) with each captured
constructor argument equal up to Python string conversion `str(v)` (defaults
enter as `pint`/`pstr` and come back as the equal-valued string; a
SettingChange re-coerces the identical raw string through the same external
validator). -/
theorem roundtrip_amended_main
    (validators : String → Option (PyVal → Except PyErr PyVal))
    (row : List String) (p : Parsed)
    (hp : parseRow validators row = some p)
    (hclean : ∀ kv ∈ p.argsOf,
      ',' ∉ kv.2.pyStr.data ∧ '\n' ∉ kv.2.pyStr.data) :
    decode validators p.encode = some p.stringifyArgs :=
  roundtrip_amended validators row p hp hclean

/-- Witness for C5 (amended) on the rows `*, 100, 200` and `$, speed, 5`. -/
theorem roundtrip_amended_main_witness :
    (parseRow novals ["*", "100", "200"] = some pointRT ∧
      decode novals pointRT.encode = some pointRT.stringifyArgs) ∧
    (parseRow vals1 ["$", "speed", "5"] = some settingRT ∧
      decode vals1 settingRT.encode = some settingRT.stringifyArgs) :=
  ⟨⟨by decide,
    roundtrip_amended_main novals ["*", "100", "200"] pointRT (by decide)
      (by decide)⟩,
   ⟨by decide,
    roundtrip_amended_main vals1 ["$", "speed", "5"] settingRT (by decide)
      (by decide)⟩⟩


end Routine
